import Mathlib

/-!
Verification of the ACME protocol orchestration slice implemented in
`src/acmed/src/acme_proto.rs`.

The file shallowly embeds the source: the configuration-level `Challenge`
enum with its `from_str`, `Display` and `PartialEq<structs::Challenge>`
implementations, the `set_data_builder!`/`set_empty_data_builder!` macros,
and the `request_certificate` orchestrator.  External collaborators (the
`http`, `account`, `certificate`, `jws`, `structs` and `storage` modules,
which are not part of the embedded source file) are represented by an
environment of functions; the orchestrator is instrumented to return, next
to its `Result`, the trace of collaborator interactions, so that invariants
such as nonce threading and step ordering can be stated over traces.
-/

abbrev Error := String

deriving instance DecidableEq for Except

abbrev Nonce := String

/-- Rust `str::to_lowercase` as used by `Challenge::from_str`, modelled
characterwise over the string's characters. -/
def to_lowercase (s : String) : String := String.mk (s.data.map Char.toLower)

/-- The configuration-level challenge enum (`pub enum Challenge` in
`acme_proto.rs`). -/
inductive Challenge where
  | Http01
  | Dns01
  | TlsAlpn01
deriving DecidableEq

/-- `Challenge::from_str` (acme_proto.rs lines 26–33): lowercase the input
and recognize exactly the three wire literals. -/
def Challenge.from_str (s : String) : Except Error Challenge :=
  match to_lowercase s with
  | "http-01" => .ok .Http01
  | "dns-01" => .ok .Dns01
  | "tls-alpn-01" => .ok .TlsAlpn01
  | _ => .error (s ++ ": unknown challenge.")

/-- `impl fmt::Display for Challenge` (acme_proto.rs lines 36–45). -/
def Challenge.display : Challenge → String
  | .Http01 => "http-01"
  | .Dns01 => "dns-01"
  | .TlsAlpn01 => "tls-alpn-01"

namespace structs

/-- Modelled from the spec: the per-variant payload of a wire-level
challenge; the `structs` module is not under `src/`.  Per §3 an offered
challenge carries the challenge URL and the server-issued token. -/
structure ChallengeData where
  token : String
  url : String
deriving DecidableEq

/-- Modelled from the spec: the wire-level challenge variants
(`structs::Challenge`, module not under `src/`).  The three one-payload
constructors are exactly the shapes matched by the
`PartialEq<structs::Challenge>` impl in `acme_proto.rs` lines 47–56. -/
inductive Challenge where
  | Http01 (d : ChallengeData)
  | Dns01 (d : ChallengeData)
  | TlsAlpn01 (d : ChallengeData)
deriving DecidableEq

/-- Modelled from the spec: `structs::Challenge::get_url`; per §4.4 "the
acceptance URL is simply the challenge's own identity URL". -/
def Challenge.get_url : Challenge → String
  | .Http01 d => d.url
  | .Dns01 d => d.url
  | .TlsAlpn01 d => d.url

end structs

/-- The variant kind of a wire-level challenge, given as the
configuration-level variant with the same name. -/
def wire_kind : structs.Challenge → Challenge
  | .Http01 _ => Challenge.Http01
  | .Dns01 _ => Challenge.Dns01
  | .TlsAlpn01 _ => Challenge.TlsAlpn01

/-- `impl PartialEq<structs::Challenge> for Challenge` (acme_proto.rs
lines 47–56): variant-kind-only comparison. -/
def Challenge.eq : Challenge → structs.Challenge → Bool
  | .Http01, .Http01 _ => true
  | .Dns01, .Dns01 _ => true
  | .TlsAlpn01, .TlsAlpn01 _ => true
  | _, _ => false

/-- The account resolved by `AccountManager::new`: a private signing key
handle and the server-assigned account URL (the "kid"). -/
structure Account where
  priv_key : String
  account_url : String
deriving DecidableEq

/-- The signed request body produced by `jws::encode_kid`.  Modelled from
the spec: the `jws` module is not under `src/`; per §4.3/§6 the signed
envelope is keyed by exactly the account key, the "kid" account URL, the
payload bytes, the target URL and the nonce. -/
structure SignedBody where
  priv_key : String
  account_url : String
  payload : String
  url : String
  nonce : String
deriving DecidableEq

/-- Modelled from the spec: `jws::encode_kid` (module not under `src/`),
binding the five envelope fields of §4.3/§6. -/
def encode_kid (priv_key : String) (account_url : String) (data : String)
    (url : String) (nonce : String) : SignedBody :=
  ⟨priv_key, account_url, data, url, nonce⟩

/-- The `set_data_builder!` macro (acme_proto.rs lines 58–62): bind the
account, payload and URL now, leave only the nonce late-bound. -/
def set_data_builder (account : Account) (data : String) (url : String) :
    Nonce → SignedBody :=
  fun n => encode_kid account.priv_key account.account_url data url n

/-- The `set_empty_data_builder!` macro (acme_proto.rs lines 63–67):
`set_data_builder!` with the empty payload `b""`. -/
def set_empty_data_builder (account : Account) (url : String) :
    Nonce → SignedBody :=
  set_data_builder account "" url

/-- Modelled from the spec: `structs::AuthorizationStatus` (module not
under `src/`), with the states of §4.4. -/
inductive AuthorizationStatus where
  | Pending
  | Processing
  | Valid
  | Invalid
deriving DecidableEq

/-- Modelled from the spec: the wire display of an authorization status
(§6: lowercase literals). -/
def AuthorizationStatus.display : AuthorizationStatus → String
  | .Pending => "pending"
  | .Processing => "processing"
  | .Valid => "valid"
  | .Invalid => "invalid"

/-- Modelled from the spec: `structs::OrderStatus` (module not under
`src/`), with the states of §4.4. -/
inductive OrderStatus where
  | Pending
  | Ready
  | Processing
  | Valid
  | Invalid
deriving DecidableEq

/-- Modelled from the spec: the domain identifier of an authorization;
its display form (used in the status error message) is its domain value
(§3: "identifier (domain value)"). -/
structure Identifier where
  value : String
deriving DecidableEq

/-- Modelled from the spec: `structs::Authorization` (module not under
`src/`); the fields are the ones `request_certificate` reads. -/
structure Authorization where
  identifier : Identifier
  status : AuthorizationStatus
  challenges : List structs.Challenge
deriving DecidableEq

/-- Modelled from the spec: `structs::Order` (module not under `src/`);
the fields are the ones `request_certificate` reads. -/
structure Order where
  status : OrderStatus
  authorizations : List String
  finalize : String
  certificate : Option String
deriving DecidableEq

/-- Modelled from the spec: the directory endpoints `request_certificate`
uses. -/
structure Directory where
  new_nonce : String
  new_order : String
deriving DecidableEq

/-- The certificate request context: the fields of
`crate::certificate::Certificate` that `request_certificate` reads
(the hook and key material are reached through the environment). -/
structure Certificate where
  remote_url : String
  domains : List String
  challenge : Challenge

/-- The external collaborators of `request_certificate`: the `http`,
`account`, `certificate` (key/CSR), `structs` (challenge methods) and
`storage` modules, none of which is under `src/`.  Each field models one
collaborator function with the argument/result shape visible at its call
site in `acme_proto.rs` (nonce in, replacement nonce out for every
signed exchange, per §4.2/§6). -/
structure Env where
  get_directory : String → Except Error Directory
  get_nonce : String → Except Error Nonce
  account_new : Certificate → Directory → Nonce → Except Error (Account × Nonce)
  to_string_new_order : List String → Except Error String
  get_obj_loc : String → (Nonce → SignedBody) → Nonce → Except Error (Order × String × Nonce)
  get_auth : String → (Nonce → SignedBody) → Nonce → Except Error (Authorization × Nonce)
  get_proof : structs.Challenge → String → Except Error String
  get_file_name : structs.Challenge → String
  call_challenge_hooks : Certificate → String → String → String → Except Error Unit
  post_challenge_response : String → (Nonce → SignedBody) → Nonce → Except Error Nonce
  pool_auth : String → (Nonce → SignedBody) → (Authorization → Bool) → Nonce → Except Error (Authorization × Nonce)
  pool_order : String → (Nonce → SignedBody) → (Order → Bool) → Nonce → Except Error (Order × Nonce)
  get_key_pair : Certificate → Except Error (String × String)
  generate_csr : Certificate → String → String → Except Error String
  get_order : String → (Nonce → SignedBody) → Nonce → Except Error (Order × Nonce)
  get_certificate : String → (Nonce → SignedBody) → Nonce → Except Error (String × Nonce)
  write_certificate : Certificate → String → Except Error Unit

/-- One observable interaction of the orchestrator with its collaborators.
Events record successfully completed calls together with the nonce they
consumed and the replacement nonce the response carried, where there is
one. -/
inductive Event where
  | get_directory (url : String) (dir : Directory)
  | first_nonce (ret : Nonce)
  | account_new (used ret : Nonce)
  | order_created (order : Order) (order_url : String) (used ret : Nonce)
  | auth_fetch (url : String) (auth : Authorization) (used ret : Nonce)
  | proof_computed (ch : structs.Challenge) (proof : String)
  | challenge_hook (file_name proof domain : String)
  | challenge_post (url : String) (used ret : Nonce)
  | auth_poll (url : String) (auth : Authorization) (used ret : Nonce)
  | order_poll_ready (order : Order) (used ret : Nonce)
  | finalize_post (used ret : Nonce)
  | order_poll_valid (order : Order) (used ret : Nonce)
  | cert_download (crt : String) (used ret : Nonce)
  | storage_write (crt : String)
deriving DecidableEq

/-- The nonce a recorded exchange consumed, if it was a signed exchange. -/
def Event.consumed : Event → Option Nonce
  | .get_directory _ _ => none
  | .first_nonce _ => none
  | .account_new u _ => some u
  | .order_created _ _ u _ => some u
  | .auth_fetch _ _ u _ => some u
  | .proof_computed _ _ => none
  | .challenge_hook _ _ _ => none
  | .challenge_post _ u _ => some u
  | .auth_poll _ _ u _ => some u
  | .order_poll_ready _ u _ => some u
  | .finalize_post u _ => some u
  | .order_poll_valid _ u _ => some u
  | .cert_download _ u _ => some u
  | .storage_write _ => none

/-- The replacement nonce a recorded exchange's response carried, if any. -/
def Event.produced : Event → Option Nonce
  | .get_directory _ _ => none
  | .first_nonce r => some r
  | .account_new _ r => some r
  | .order_created _ _ _ r => some r
  | .auth_fetch _ _ _ r => some r
  | .proof_computed _ _ => none
  | .challenge_hook _ _ _ => none
  | .challenge_post _ _ r => some r
  | .auth_poll _ _ _ r => some r
  | .order_poll_ready _ _ r => some r
  | .finalize_post _ r => some r
  | .order_poll_valid _ _ r => some r
  | .cert_download _ _ r => some r
  | .storage_write _ => none

/-- Coarse classification of events, used to delimit which phase of the
run an event can come from. -/
inductive EKind where
  | kdir
  | kfnonce
  | kacct
  | kordc
  | kafetch
  | kproof
  | khook
  | kcpost
  | kapoll
  | koready
  | kfin
  | kovalid
  | kcdl
  | kstore
deriving DecidableEq

def Event.kind : Event → EKind
  | .get_directory _ _ => .kdir
  | .first_nonce _ => .kfnonce
  | .account_new _ _ => .kacct
  | .order_created _ _ _ _ => .kordc
  | .auth_fetch _ _ _ _ => .kafetch
  | .proof_computed _ _ => .kproof
  | .challenge_hook _ _ _ => .khook
  | .challenge_post _ _ _ => .kcpost
  | .auth_poll _ _ _ _ => .kapoll
  | .order_poll_ready _ _ _ => .koready
  | .finalize_post _ _ => .kfin
  | .order_poll_valid _ _ _ => .kovalid
  | .cert_download _ _ _ => .kcdl
  | .storage_write _ => .kstore

def Event.is_auth_poll : Event → Bool
  | .auth_poll _ _ _ _ => true
  | _ => false

/-- Sequencing of traced fallible steps: the Rust `?` operator, with the
events of the first step kept in front of whatever the continuation
produces. -/
def andThen {α β : Type} (step : List Event × Except Error α)
    (k : α → List Event × Except Error β) : List Event × Except Error β :=
  match step with
  | (tr, .error e) => (tr, .error e)
  | (tr, .ok a) =>
    match k a with
    | (tr2, r) => (tr ++ tr2, r)

/-- A collaborator call that records one event on success. -/
def callEv {α : Type} (r : Except Error α) (ev : α → Event) :
    List Event × Except Error α :=
  match r with
  | .error e => ([], .error e)
  | .ok a => ([ev a], .ok a)

/-- A collaborator call that records no event (pure computation steps such
as CSR generation). -/
def callEv0 {α : Type} (r : Except Error α) : List Event × Except Error α :=
  ([], r)

/-- Steps 6–8 of `request_certificate` for a single offered challenge
(acme_proto.rs lines 105–120): if the configured challenge equals the
offered one, compute the proof, call the challenge hooks, then POST the
`b"\x7b\x7d"` acceptance body to the challenge URL; otherwise do nothing. -/
def process_challenge (env : Env) (cert : Certificate) (account : Account)
    (auth : Authorization) (challenge : structs.Challenge) (nonce : Nonce) :
    List Event × Except Error Nonce :=
  if Challenge.eq cert.challenge challenge then
    match env.get_proof challenge account.priv_key with
    | .error e => ([], .error e)
    | .ok proof =>
      match env.call_challenge_hooks cert (env.get_file_name challenge) proof
          auth.identifier.value with
      | .error e => ([Event.proof_computed challenge proof], .error e)
      | .ok _ =>
        match env.post_challenge_response challenge.get_url
            (set_data_builder account "\x7b\x7d" challenge.get_url) nonce with
        | .error e =>
          ([Event.proof_computed challenge proof,
            Event.challenge_hook (env.get_file_name challenge) proof
              auth.identifier.value], .error e)
        | .ok new_nonce =>
          ([Event.proof_computed challenge proof,
            Event.challenge_hook (env.get_file_name challenge) proof
              auth.identifier.value,
            Event.challenge_post challenge.get_url nonce new_nonce],
            .ok new_nonce)
  else ([], .ok nonce)

/-- The `for challenge in auth.challenges.iter()` loop of
`request_certificate` (acme_proto.rs lines 105–120). -/
def process_challenges (env : Env) (cert : Certificate) (account : Account)
    (auth : Authorization) : List structs.Challenge → Nonce →
    List Event × Except Error Nonce
  | [], nonce => ([], .ok nonce)
  | ch :: rest, nonce =>
    andThen (process_challenge env cert account auth ch nonce) fun n2 =>
      process_challenges env cert account auth rest n2

/-- Step 9 of `request_certificate` (acme_proto.rs lines 122–127): poll
the authorization until its status is `Valid`. -/
def pool_auth_step (env : Env) (account : Account) (auth_url : String)
    (nonce : Nonce) : List Event × Except Error Nonce :=
  match env.pool_auth auth_url (set_empty_data_builder account auth_url)
      (fun a => decide (a.status = AuthorizationStatus.Valid)) nonce with
  | .error e => ([], .error e)
  | .ok (a, new_nonce) =>
    ([Event.auth_poll auth_url a nonce new_nonce], .ok new_nonce)

/-- The body of the authorization loop after the fetch (acme_proto.rs
lines 93–127): skip `Valid`, abort on anything other than `Pending`,
otherwise run the challenge loop and poll the authorization. -/
def handle_auth (env : Env) (cert : Certificate) (account : Account)
    (auth_url : String) (auth : Authorization) (nonce : Nonce) :
    List Event × Except Error Nonce :=
  if auth.status = AuthorizationStatus.Valid then ([], .ok nonce)
  else if auth.status ≠ AuthorizationStatus.Pending then
    ([], .error (auth.identifier.value ++ ": authorization status is "
                  ++ auth.status.display))
  else
    andThen (process_challenges env cert account auth auth.challenges nonce)
      fun n2 => pool_auth_step env account auth_url n2

/-- Step 5 of `request_certificate` (acme_proto.rs lines 87–128): the
`for auth_url in order.authorizations.iter()` loop. -/
def process_auths (env : Env) (cert : Certificate) (account : Account) :
    List String → Nonce → List Event × Except Error Nonce
  | [], nonce => ([], .ok nonce)
  | auth_url :: rest, nonce =>
    andThen
      (andThen
        (callEv (env.get_auth auth_url (set_empty_data_builder account auth_url) nonce)
          (fun p => Event.auth_fetch auth_url p.1 nonce p.2))
        (fun p => handle_auth env cert account auth_url p.1 p.2))
      fun n2 => process_auths env cert account rest n2

/-- Steps 12–13 of `request_certificate` (acme_proto.rs lines 142–154):
poll the order to `Valid`, read the certificate URL (failing when it is
absent), download the certificate and hand it to storage. -/
def download_steps (env : Env) (cert : Certificate) (account : Account)
    (order_url : String) (nonce : Nonce) : List Event × Except Error Unit :=
  andThen
    (callEv (env.pool_order order_url (set_empty_data_builder account order_url)
        (fun o => decide (o.status = OrderStatus.Valid)) nonce)
      (fun p => Event.order_poll_valid p.1 nonce p.2)) fun pv =>
  match pv.1.certificate with
  | none => ([], .error "No certificate available for download.")
  | some crt_url =>
    andThen
      (callEv (env.get_certificate crt_url (set_empty_data_builder account crt_url) pv.2)
        (fun c => Event.cert_download c.1 pv.2 c.2)) fun c =>
      callEv (env.write_certificate cert c.1) (fun _ => Event.storage_write c.1)

/-- Steps 10–13 of `request_certificate` (acme_proto.rs lines 130–154):
poll the order to `Ready`, generate the key pair and CSR, POST the CSR to
the finalize URL of the re-polled order, then the download phase. -/
def finalize_steps (env : Env) (cert : Certificate) (account : Account)
    (order_url : String) (nonce : Nonce) : List Event × Except Error Unit :=
  andThen
    (callEv (env.pool_order order_url (set_empty_data_builder account order_url)
        (fun o => decide (o.status = OrderStatus.Ready)) nonce)
      (fun p => Event.order_poll_ready p.1 nonce p.2)) fun pr =>
  andThen (callEv0 (env.get_key_pair cert)) fun kp =>
  andThen (callEv0 (env.generate_csr cert kp.1 kp.2)) fun csr =>
  andThen
    (callEv (env.get_order pr.1.finalize
        (set_data_builder account csr pr.1.finalize) pr.2)
      (fun q => Event.finalize_post pr.2 q.2)) fun q =>
  download_steps env cert account order_url q.2

/-- Steps 3–13 of `request_certificate` (acme_proto.rs lines 77–154):
everything after the initial nonce has been obtained. -/
def issuance_steps (env : Env) (cert : Certificate) (directory : Directory)
    (nonce : Nonce) : List Event × Except Error Unit :=
  andThen
    (callEv (env.account_new cert directory nonce)
      (fun p => Event.account_new nonce p.2)) fun ap =>
  andThen (callEv0 (env.to_string_new_order cert.domains)) fun new_order =>
  andThen
    (callEv (env.get_obj_loc directory.new_order
        (set_data_builder ap.1 new_order directory.new_order) ap.2)
      (fun q => Event.order_created q.1 q.2.1 ap.2 q.2.2)) fun q =>
  andThen (process_auths env cert ap.1 q.1.authorizations q.2.2) fun n4 =>
  finalize_steps env cert ap.1 q.2.1 n4

/-- `request_certificate` (acme_proto.rs lines 69–158), instrumented with
the trace of collaborator interactions. -/
def request_certificate (env : Env) (cert : Certificate) :
    List Event × Except Error Unit :=
  match env.get_directory cert.remote_url with
  | .error e => ([], .error e)
  | .ok directory =>
    match env.get_nonce directory.new_nonce with
    | .error e => ([Event.get_directory cert.remote_url directory], .error e)
    | .ok nonce =>
      match issuance_steps env cert directory nonce with
      | (tr, r) =>
        (Event.get_directory cert.remote_url directory
          :: Event.first_nonce nonce :: tr, r)

/-- The nonce that is live after observing one more event: a response
nonce replaces the current one, other events leave it unchanged. -/
def nextCur (cur : Option Nonce) (e : Event) : Option Nonce :=
  match e.produced with
  | some n => some n
  | none => cur

/-- An event may only consume the currently live nonce. -/
def consumeOK (cur : Option Nonce) (e : Event) : Bool :=
  match e.consumed with
  | none => true
  | some u => decide (cur = some u)

/-- The nonce-threading invariant over a trace: starting from live nonce
`cur`, every signed exchange consumes exactly the live nonce, which each
response then replaces. -/
def chainOK : Option Nonce → List Event → Bool
  | _, [] => true
  | cur, e :: tr => consumeOK cur e && chainOK (nextCur cur e) tr

/-- The live nonce after a trace. -/
def chainEnd : Option Nonce → List Event → Option Nonce
  | cur, [] => cur
  | cur, e :: tr => chainEnd (nextCur cur e) tr

/-- All nonces consumed by requests in a trace, in order. -/
def consumedList (tr : List Event) : List Nonce := tr.filterMap Event.consumed

/-- All nonces produced by responses in a trace, in order. -/
def producedList (tr : List Event) : List Nonce := tr.filterMap Event.produced

/-- One traced step starting from live nonce `n` keeps the chain intact,
and on success the live nonce afterwards is `next` of the result. -/
def StepOK {α : Type} (n : Nonce) (res : List Event × Except Error α)
    (next : α → Nonce) : Prop :=
  chainOK (some n) res.1 = true ∧
    ∀ a, res.2 = .ok a → chainEnd (some n) res.1 = some (next a)

/-- A pending authorization offering one http-01 challenge, used by the
concrete runs below. -/
def exAuthPending : Authorization :=
  ⟨⟨"example.org"⟩, AuthorizationStatus.Pending,
    [structs.Challenge.Http01 ⟨"tok", "ch-url"⟩]⟩

/-- An already-valid authorization. -/
def exAuthValid : Authorization :=
  ⟨⟨"example.org"⟩, AuthorizationStatus.Valid, []⟩

def exOrderPending : Order := ⟨OrderStatus.Pending, ["auth1"], "fin-url", none⟩

def exOrderReady : Order := ⟨OrderStatus.Ready, ["auth1"], "fin-url", none⟩

def exOrderValid : Order := ⟨OrderStatus.Valid, ["auth1"], "fin-url", some "crt-url"⟩

/-- A concrete environment in which every collaborator call succeeds and
every response carries a fresh replacement nonce. -/
def exEnv : Env where
  get_directory := fun _ => .ok ⟨"nn-url", "no-url"⟩
  get_nonce := fun _ => .ok "n"
  account_new := fun _ _ n => .ok (⟨"key", "kid"⟩, n ++ "x")
  to_string_new_order := fun _ => .ok "neworder"
  get_obj_loc := fun _ _ n => .ok (exOrderPending, "order-url", n ++ "x")
  get_auth := fun _ _ n => .ok (exAuthPending, n ++ "x")
  get_proof := fun _ _ => .ok "proof"
  get_file_name := fun _ => "fname"
  call_challenge_hooks := fun _ _ _ _ => .ok ()
  post_challenge_response := fun _ _ n => .ok (n ++ "x")
  pool_auth := fun _ _ p n =>
    if p exAuthValid then .ok (exAuthValid, n ++ "x") else .error "pool failed"
  pool_order := fun _ _ p n =>
    if p exOrderReady then .ok (exOrderReady, n ++ "x")
    else if p exOrderValid then .ok (exOrderValid, n ++ "x")
    else .error "pool failed"
  get_key_pair := fun _ => .ok ("privkey", "pubkey")
  generate_csr := fun _ _ _ => .ok "csr"
  get_order := fun _ _ n => .ok (exOrderReady, n ++ "x")
  get_certificate := fun _ _ n => .ok ("PEM", n ++ "x")
  write_certificate := fun _ _ => .ok ()

/-- The concrete certificate request used by the concrete runs. -/
def exCert : Certificate := ⟨"acme-url", ["example.org"], Challenge.Http01⟩

/-- An environment that leaks, through its error value, the payload of the
signed body that the orchestrator hands to the authorization fetch and to
the challenge-acceptance POST, making the payload choice observable. -/
def probeEnv : Env :=
  { exEnv with
    get_auth := fun _ b n => .error (b n).payload
    post_challenge_response := fun _ b n => .error (b n).payload }

/-- An environment whose challenge hook fails. -/
def hookFailEnv : Env :=
  { exEnv with call_challenge_hooks := fun _ _ _ _ => .error "hook failed" }

/-- A pending authorization offering only a dns-01 challenge, which does
not match the http-01 configuration of `exCert`. -/
def exAuthNoMatch : Authorization :=
  ⟨⟨"example.org"⟩, AuthorizationStatus.Pending,
    [structs.Challenge.Dns01 ⟨"tok", "ch-url"⟩]⟩

/-- An authorization reported with the terminal status invalid. -/
def exAuthInvalid : Authorization :=
  ⟨⟨"example.org"⟩, AuthorizationStatus.Invalid, []⟩

/-- An environment whose authorization fetch reports status invalid. -/
def badAuthEnv : Env :=
  { exEnv with get_auth := fun _ _ n => .ok (exAuthInvalid, n ++ "x") }

/-- A valid order whose certificate field is absent. -/
def exOrderValidNoCert : Order :=
  ⟨OrderStatus.Valid, ["auth1"], "fin-url", none⟩

/-- An environment whose valid-order poll reports no certificate URL. -/
def noCertEnv : Env :=
  { exEnv with
    pool_order := fun _ _ p n =>
      if p exOrderReady then .ok (exOrderReady, n ++ "x")
      else if p exOrderValidNoCert then .ok (exOrderValidNoCert, n ++ "x")
      else .error "pool failed" }

/-- Soundness of the order-polling collaborator, modelled from the spec
(§4.2): on success the returned resource satisfies the break predicate. -/
def poolOrderSound (env : Env) : Prop :=
  ∀ url db p n pn, env.pool_order url db p n = .ok pn → p pn.1 = true

/-- Soundness of the authorization-polling collaborator, modelled from
the spec (§4.2). -/
def poolAuthSound (env : Env) : Prop :=
  ∀ url db p n pn, env.pool_auth url db p n = .ok pn → p pn.1 = true

/-- An environment whose authorization fetch reports the authorization as
already valid, so challenge handling and authorization polling are
skipped. -/
def skipEnv : Env :=
  { exEnv with get_auth := fun _ _ n => .ok (exAuthValid, n ++ "x") }

theorem chainEnd_append (cur : Option Nonce) (t1 t2 : List Event) :
    chainEnd cur (t1 ++ t2) = chainEnd (chainEnd cur t1) t2 := by
  induction t1 generalizing cur with
  | nil => simp [chainEnd]
  | cons e t ih => simp [chainEnd, ih]

theorem chainOK_append (cur : Option Nonce) (t1 t2 : List Event) :
    chainOK cur (t1 ++ t2) = (chainOK cur t1 && chainOK (chainEnd cur t1) t2) := by
  induction t1 generalizing cur with
  | nil => simp [chainOK, chainEnd]
  | cons e t ih => simp [chainOK, chainEnd, ih, Bool.and_assoc]

theorem Event.produced_of_consumed (e : Event) (u : Nonce)
    (h : e.consumed = some u) : ∃ r, e.produced = some r := by
  cases e <;> simp_all [Event.consumed, Event.produced]

theorem consumedList_cons (e : Event) (t : List Event) :
    consumedList (e :: t) = e.consumed.toList ++ consumedList t := by
  rcases hc : e.consumed with _ | u <;>
    simp [consumedList, List.filterMap_cons, hc]

theorem producedList_cons (e : Event) (t : List Event) :
    producedList (e :: t) = e.produced.toList ++ producedList t := by
  rcases hp : e.produced with _ | r <;>
    simp [producedList, List.filterMap_cons, hp]

theorem consumed_mem_of_chainOK (tr : List Event) :
    ∀ (cur : Option Nonce), chainOK cur tr = true →
    ∀ x ∈ consumedList tr, x ∈ cur.toList ++ producedList tr := by
  induction tr with
  | nil => intro cur _ x hx; simp [consumedList] at hx
  | cons e t ih =>
    intro cur hch x hx
    rw [chainOK, Bool.and_eq_true] at hch
    obtain ⟨hce, hct⟩ := hch
    rw [producedList_cons]
    rw [consumedList_cons] at hx
    rcases hc : e.consumed with _ | u
    · rw [hc] at hx
      have hx' : x ∈ consumedList t := by simpa using hx
      have hmem := ih (nextCur cur e) hct x hx'
      rcases hp : e.produced with _ | p
      · have hnc : nextCur cur e = cur := by simp [nextCur, hp]
        rw [hnc] at hmem
        simpa [hp] using hmem
      · have hnc : nextCur cur e = some p := by simp [nextCur, hp]
        rw [hnc] at hmem
        have hx2 : x = p ∨ x ∈ producedList t := by
          simpa [Option.toList] using hmem
        rcases hx2 with rfl | hx2
        · exact List.mem_append_right _ (by simp [Option.toList])
        · exact List.mem_append_right _ (by
            simp only [Option.toList, List.mem_append, List.mem_cons]
            exact Or.inr hx2)
    · have hcur : cur = some u := by
        have := hce
        rw [consumeOK, hc] at this
        exact of_decide_eq_true this
      rw [hc] at hx
      have hx' : x = u ∨ x ∈ consumedList t := by
        simpa [Option.toList] using hx
      rcases hx' with rfl | hx'
      · exact List.mem_append_left _ (by simp [hcur, Option.toList])
      · have hmem := ih (nextCur cur e) hct x hx'
        obtain ⟨p, hp⟩ := Event.produced_of_consumed e u hc
        have hnc : nextCur cur e = some p := by simp [nextCur, hp]
        rw [hnc] at hmem
        have hx2 : x = p ∨ x ∈ producedList t := by
          simpa [Option.toList] using hmem
        rw [hp]
        refine List.mem_append_right _ ?_
        simp only [Option.toList, List.mem_append, List.mem_cons]
        tauto

theorem nodup_consumed_of_chainOK (tr : List Event) :
    ∀ (cur : Option Nonce), chainOK cur tr = true →
    (cur.toList ++ producedList tr).Nodup → (consumedList tr).Nodup := by
  induction tr with
  | nil => intro cur _ _; simp [consumedList]
  | cons e t ih =>
    intro cur hch hnd
    rw [chainOK, Bool.and_eq_true] at hch
    obtain ⟨hce, hct⟩ := hch
    rw [producedList_cons] at hnd
    rw [consumedList_cons]
    rcases hc : e.consumed with _ | u
    · simp only [Option.toList, List.nil_append]
      apply ih (nextCur cur e) hct
      rcases hp : e.produced with _ | p
      · have hnc : nextCur cur e = cur := by simp [nextCur, hp]
        rw [hnc]
        simpa [hp] using hnd
      · have hnc : nextCur cur e = some p := by simp [nextCur, hp]
        rw [hnc]
        rw [hp] at hnd
        have hsub : ((some p : Option Nonce).toList ++ producedList t).Sublist
            (cur.toList ++ ((some p : Option Nonce).toList ++ producedList t)) :=
          List.sublist_append_right _ _
        exact hnd.sublist hsub
    · have hcur : cur = some u := by
        have := hce
        rw [consumeOK, hc] at this
        exact of_decide_eq_true this
      obtain ⟨p, hp⟩ := Event.produced_of_consumed e u hc
      have hnc : nextCur cur e = some p := by simp [nextCur, hp]
      have hnd' : (u :: p :: producedList t).Nodup := by
        simpa [hcur, hp, Option.toList] using hnd
      simp only [Option.toList, List.singleton_append]
      refine List.Nodup.cons ?_ ?_
      · intro hmem
        have hmem2 := consumed_mem_of_chainOK t (nextCur cur e) hct u hmem
        rw [hnc] at hmem2
        have hupp : u = p ∨ u ∈ producedList t := by
          simpa [Option.toList] using hmem2
        have hu1 : u ∉ p :: producedList t := (List.nodup_cons.mp hnd').1
        simp only [List.mem_cons] at hu1
        tauto
      · apply ih (nextCur cur e) hct
        rw [hnc]
        have : (p :: producedList t).Nodup := (List.nodup_cons.mp hnd').2
        simpa [Option.toList] using this

theorem StepOK_andThen {α β : Type} {n : Nonce} {step : List Event × Except Error α}
    {k : α → List Event × Except Error β} (next1 : α → Nonce) {next2 : β → Nonce}
    (h1 : StepOK n step next1)
    (h2 : ∀ a, step.2 = .ok a → StepOK (next1 a) (k a) next2) :
    StepOK n (andThen step k) next2 := by
  obtain ⟨hc, he⟩ := h1
  rcases step with ⟨tr, r⟩
  cases r with
  | error e =>
    refine ⟨by simpa [andThen] using hc, ?_⟩
    intro b hb; simp [andThen] at hb
  | ok a =>
    have h3 := h2 a rfl
    have hend : chainEnd (some n) tr = some (next1 a) := he a rfl
    rcases hk : k a with ⟨tr2, r2⟩
    rw [hk] at h3
    constructor
    · simp only [andThen, hk]
      rw [chainOK_append, hc, hend, Bool.true_and]
      exact h3.1
    · intro b hb
      simp only [andThen, hk] at hb ⊢
      rw [chainEnd_append, hend]
      exact h3.2 b hb

theorem chainOK_andThen_last {α β : Type} {n : Nonce}
    {step : List Event × Except Error α} {k : α → List Event × Except Error β}
    (next1 : α → Nonce)
    (h1 : StepOK n step next1)
    (h2 : ∀ a, step.2 = .ok a → chainOK (some (next1 a)) (k a).1 = true) :
    chainOK (some n) (andThen step k).1 = true := by
  obtain ⟨hc, he⟩ := h1
  rcases step with ⟨tr, r⟩
  cases r with
  | error e => simpa [andThen] using hc
  | ok a =>
    have hend : chainEnd (some n) tr = some (next1 a) := he a rfl
    rcases hk : k a with ⟨tr2, r2⟩
    simp only [andThen, hk]
    rw [chainOK_append, hc, hend, Bool.true_and]
    simpa [hk] using h2 a rfl

theorem StepOK_callEv {α : Type} (r : Except Error α) (ev : α → Event)
    (n : Nonce) (next : α → Nonce)
    (hc : ∀ a, (ev a).consumed = some n)
    (hp : ∀ a, (ev a).produced = some (next a)) :
    StepOK n (callEv r ev) next := by
  cases r with
  | error e => exact ⟨rfl, by intro a ha; simp [callEv] at ha⟩
  | ok a =>
    constructor
    · simp [callEv, chainOK, consumeOK, hc a]
    · intro b hb
      simp only [callEv] at hb ⊢
      cases hb
      simp [chainEnd, nextCur, hp a]

theorem StepOK_callEv0 {α : Type} (r : Except Error α) (n : Nonce) :
    StepOK n (callEv0 r) (fun _ => n) := by
  exact ⟨rfl, by intro a _; rfl⟩

theorem process_challenge_StepOK (env : Env) (cert : Certificate)
    (account : Account) (auth : Authorization) (ch : structs.Challenge)
    (n : Nonce) : StepOK n (process_challenge env cert account auth ch n) id := by
  unfold StepOK
  by_cases hm : Challenge.eq cert.challenge ch = true
  · cases hpf : env.get_proof ch account.priv_key with
    | error e => simp [process_challenge, hm, hpf, chainOK]
    | ok proof =>
      cases hhk : env.call_challenge_hooks cert (env.get_file_name ch) proof
          auth.identifier.value with
      | error e =>
        simp [process_challenge, hm, hpf, hhk, chainOK, consumeOK, nextCur,
          Event.consumed, Event.produced, chainEnd]
      | ok u =>
        cases hpo : env.post_challenge_response ch.get_url
            (set_data_builder account "\x7b\x7d" ch.get_url) n with
        | error e =>
          simp [process_challenge, hm, hpf, hhk, hpo, chainOK, consumeOK,
            nextCur, Event.consumed, Event.produced, chainEnd]
        | ok n2 =>
          simp [process_challenge, hm, hpf, hhk, hpo, chainOK, consumeOK,
            nextCur, Event.consumed, Event.produced, chainEnd]
  · simp [process_challenge, hm, chainOK, chainEnd]

theorem process_challenges_StepOK (env : Env) (cert : Certificate)
    (account : Account) (auth : Authorization) :
    ∀ (chs : List structs.Challenge) (n : Nonce),
    StepOK n (process_challenges env cert account auth chs n) id := by
  intro chs
  induction chs with
  | nil => exact fun n => ⟨rfl, by intro a ha; cases ha; rfl⟩
  | cons ch rest ih =>
    intro n
    rw [process_challenges]
    exact StepOK_andThen id (process_challenge_StepOK env cert account auth ch n)
      (fun a _ => ih a)

theorem pool_auth_step_StepOK (env : Env) (account : Account)
    (auth_url : String) (n : Nonce) :
    StepOK n (pool_auth_step env account auth_url n) id := by
  unfold StepOK
  cases hpa : env.pool_auth auth_url (set_empty_data_builder account auth_url)
      (fun a => decide (a.status = AuthorizationStatus.Valid)) n with
  | error e => simp [pool_auth_step, hpa, chainOK]
  | ok p =>
    simp [pool_auth_step, hpa, chainOK, consumeOK, nextCur, Event.consumed,
      Event.produced, chainEnd]

theorem handle_auth_StepOK (env : Env) (cert : Certificate) (account : Account)
    (auth_url : String) (auth : Authorization) (n : Nonce) :
    StepOK n (handle_auth env cert account auth_url auth n) id := by
  by_cases hv : auth.status = AuthorizationStatus.Valid
  · rw [handle_auth, if_pos hv]
    exact ⟨rfl, by intro a ha; cases ha; rfl⟩
  · by_cases hp : auth.status = AuthorizationStatus.Pending
    · rw [handle_auth, if_neg hv, if_neg (not_not_intro hp)]
      exact StepOK_andThen id
        (process_challenges_StepOK env cert account auth auth.challenges n)
        (fun a _ => pool_auth_step_StepOK env account auth_url a)
    · rw [handle_auth, if_neg hv, if_pos hp]
      exact ⟨rfl, by intro a ha; cases ha⟩

theorem process_auths_StepOK (env : Env) (cert : Certificate) (account : Account) :
    ∀ (urls : List String) (n : Nonce),
    StepOK n (process_auths env cert account urls n) id := by
  intro urls
  induction urls with
  | nil => exact fun n => ⟨rfl, by intro a ha; cases ha; rfl⟩
  | cons url rest ih =>
    intro n
    rw [process_auths]
    refine StepOK_andThen id ?_ (fun a _ => ih a)
    exact StepOK_andThen (fun p => p.2)
      (StepOK_callEv (env.get_auth url (set_empty_data_builder account url) n)
        (fun p => Event.auth_fetch url p.1 n p.2) n (fun p => p.2)
        (fun p => rfl) (fun p => rfl))
      (fun p _ => handle_auth_StepOK env cert account url p.1 p.2)

theorem download_steps_chainOK (env : Env) (cert : Certificate)
    (account : Account) (order_url : String) (n : Nonce) :
    chainOK (some n) (download_steps env cert account order_url n).1 = true := by
  unfold download_steps
  refine chainOK_andThen_last (fun p => p.2)
    (StepOK_callEv _ _ _ _ (fun p => rfl) (fun p => rfl)) ?_
  intro pv _
  cases hc : pv.1.certificate with
  | none => rfl
  | some crt_url =>
    refine chainOK_andThen_last (fun c => c.2)
      (StepOK_callEv _ _ _ _ (fun c => rfl) (fun c => rfl)) ?_
    intro c _
    cases hw : env.write_certificate cert c.1 with
    | error e => rfl
    | ok u => simp [callEv, chainOK, consumeOK, Event.consumed]

theorem finalize_steps_chainOK (env : Env) (cert : Certificate)
    (account : Account) (order_url : String) (n : Nonce) :
    chainOK (some n) (finalize_steps env cert account order_url n).1 = true := by
  unfold finalize_steps
  refine chainOK_andThen_last (fun p => p.2)
    (StepOK_callEv _ _ _ _ (fun p => rfl) (fun p => rfl)) ?_
  intro pr _
  refine chainOK_andThen_last _ (StepOK_callEv0 _ _) ?_
  intro kp _
  refine chainOK_andThen_last _ (StepOK_callEv0 _ _) ?_
  intro csr _
  refine chainOK_andThen_last (fun q => q.2)
    (StepOK_callEv _ _ _ _ (fun q => rfl) (fun q => rfl)) ?_
  intro q _
  exact download_steps_chainOK env cert account order_url q.2

theorem issuance_steps_chainOK (env : Env) (cert : Certificate)
    (directory : Directory) (n : Nonce) :
    chainOK (some n) (issuance_steps env cert directory n).1 = true := by
  unfold issuance_steps
  refine chainOK_andThen_last (fun p => p.2)
    (StepOK_callEv _ _ _ _ (fun p => rfl) (fun p => rfl)) ?_
  intro ap _
  refine chainOK_andThen_last _ (StepOK_callEv0 _ _) ?_
  intro no _
  refine chainOK_andThen_last (fun q => q.2.2)
    (StepOK_callEv _ _ _ _ (fun q => rfl) (fun q => rfl)) ?_
  intro q _
  refine chainOK_andThen_last _
    (process_auths_StepOK env cert ap.1 q.1.authorizations q.2.2) ?_
  intro n4 _
  exact finalize_steps_chainOK env cert ap.1 q.2.1 n4

theorem request_certificate_chainOK (env : Env) (cert : Certificate) :
    chainOK none (request_certificate env cert).1 = true := by
  cases hd : env.get_directory cert.remote_url with
  | error e => simp [request_certificate, hd, chainOK]
  | ok directory =>
    cases hn : env.get_nonce directory.new_nonce with
    | error e =>
      simp [request_certificate, hd, hn, chainOK, consumeOK, Event.consumed]
    | ok nonce =>
      have h := issuance_steps_chainOK env cert directory nonce
      simpa [request_certificate, hd, hn, chainOK, consumeOK, nextCur,
        Event.consumed, Event.produced] using h

/-- Claim C1: in every issuance run, the nonce passed to request n+1 is
exactly the nonce returned by response n — the initial nonce from the
new-nonce fetch is threaded through account resolution, order creation,
authorization fetches, challenge-acceptance POSTs, polling calls, finalize
and certificate download — and, provided the server-issued nonces are
pairwise distinct, no two requests are ever built with the same nonce. -/
theorem claim1_nonce_threading (env : Env) (cert : Certificate) :
    chainOK none (request_certificate env cert).1 = true ∧
    ((producedList (request_certificate env cert).1).Nodup →
      (consumedList (request_certificate env cert).1).Nodup) := by
  refine ⟨request_certificate_chainOK env cert, ?_⟩
  intro hnd
  apply nodup_consumed_of_chainOK (request_certificate env cert).1 none
    (request_certificate_chainOK env cert)
  simpa [Option.toList] using hnd

/-- Witness for claim C1: at a concrete successful run with fresh server
nonces, the consumed nonces are pairwise distinct. -/
theorem claim1_nonce_threading_witness :
    (consumedList (request_certificate exEnv exCert).1).Nodup :=
  (claim1_nonce_threading exEnv exCert).2 (by decide)

theorem from_str_http (s : String) (h : to_lowercase s = "http-01") :
    Challenge.from_str s = .ok Challenge.Http01 := by
  unfold Challenge.from_str
  rw [h]
  rfl

theorem from_str_dns (s : String) (h : to_lowercase s = "dns-01") :
    Challenge.from_str s = .ok Challenge.Dns01 := by
  unfold Challenge.from_str
  rw [h]
  rfl

theorem from_str_alpn (s : String) (h : to_lowercase s = "tls-alpn-01") :
    Challenge.from_str s = .ok Challenge.TlsAlpn01 := by
  unfold Challenge.from_str
  rw [h]
  rfl

theorem from_str_unknown (s : String) (h1 : to_lowercase s ≠ "http-01")
    (h2 : to_lowercase s ≠ "dns-01") (h3 : to_lowercase s ≠ "tls-alpn-01") :
    Challenge.from_str s = .error (s ++ ": unknown challenge.") := by
  unfold Challenge.from_str
  split
  · exact absurd (by assumption) h1
  · exact absurd (by assumption) h2
  · exact absurd (by assumption) h3
  · rfl

/-- Claim C4: `Challenge::from_str` succeeds exactly when the lowercased
input is one of the three literals (so parsing is case-insensitive, e.g.
"HTTP-01" parses like "http-01"), and on any other string it returns the
configuration error rather than panicking. -/
theorem claim4_from_str_total (s : String) :
    ((to_lowercase s = "http-01" ∨ to_lowercase s = "dns-01" ∨
        to_lowercase s = "tls-alpn-01") ↔
      ∃ c, Challenge.from_str s = .ok c) ∧
    (¬ (to_lowercase s = "http-01" ∨ to_lowercase s = "dns-01" ∨
        to_lowercase s = "tls-alpn-01") →
      Challenge.from_str s = .error (s ++ ": unknown challenge.")) ∧
    Challenge.from_str "HTTP-01" = Challenge.from_str "http-01" := by
  refine ⟨⟨?_, ?_⟩, ?_, by decide⟩
  · rintro (h | h | h)
    · exact ⟨Challenge.Http01, from_str_http s h⟩
    · exact ⟨Challenge.Dns01, from_str_dns s h⟩
    · exact ⟨Challenge.TlsAlpn01, from_str_alpn s h⟩
  · rintro ⟨c, hc⟩
    by_contra hno
    push_neg at hno
    rw [from_str_unknown s hno.1 hno.2.1 hno.2.2] at hc
    cases hc
  · intro hno
    push_neg at hno
    exact from_str_unknown s hno.1 hno.2.1 hno.2.2

/-- Witness for claim C4: "http01" is rejected with the configuration
error. -/
theorem claim4_from_str_total_witness :
    Challenge.from_str "http01" = .error ("http01" ++ ": unknown challenge.") :=
  (claim4_from_str_total "http01").2.1 (by decide)

/-- Claim C5: for every case variation of one of the three recognized
literals, the parsed variant displays back as exactly the lowercased
input: `display(parse(s)) = lowercase(s)`. -/
theorem claim5_round_trip (s : String)
    (h : to_lowercase s = "http-01" ∨ to_lowercase s = "dns-01" ∨
      to_lowercase s = "tls-alpn-01") :
    ∃ c, Challenge.from_str s = .ok c ∧ c.display = to_lowercase s := by
  rcases h with h | h | h
  · exact ⟨Challenge.Http01, from_str_http s h, by rw [h]; rfl⟩
  · exact ⟨Challenge.Dns01, from_str_dns s h, by rw [h]; rfl⟩
  · exact ⟨Challenge.TlsAlpn01, from_str_alpn s h, by rw [h]; rfl⟩

/-- Witness for claim C5 at the case variation "DNS-01". -/
theorem claim5_round_trip_witness :
    ∃ c, Challenge.from_str "DNS-01" = .ok c ∧
      c.display = to_lowercase "DNS-01" :=
  claim5_round_trip "DNS-01" (by decide)

/-- Claim C8: the signed-request builder binds the account key, the "kid"
account URL, the payload and the target URL, leaving only the nonce
late-bound; the empty payload of the GET-as-POST builders is represented
distinctly from the literal "\x7b\x7d" payload of the challenge-acceptance
builder, and the orchestrator hands the "\x7b\x7d" builder to the
challenge-acceptance POST and the empty-payload builder to the
authorization fetch — the two are never conflated. -/
theorem claim8_signed_request_builder :
    (∀ (account : Account) (data url n : String),
      set_data_builder account data url n =
        { priv_key := account.priv_key, account_url := account.account_url,
          payload := data, url := url, nonce := n }) ∧
    (∀ (account : Account) (url n : String),
      (set_empty_data_builder account url n).payload = "" ∧
      (set_data_builder account "\x7b\x7d" url n).payload = "\x7b\x7d" ∧
      set_empty_data_builder account url n ≠ set_data_builder account "\x7b\x7d" url n) ∧
    (∀ (cert : Certificate) (account : Account) (auth : Authorization)
        (ch : structs.Challenge) (n : Nonce),
      Challenge.eq cert.challenge ch = true →
      (process_challenge probeEnv cert account auth ch n).2 = .error "\x7b\x7d") ∧
    (∀ (cert : Certificate) (account : Account) (url : String) (n : Nonce),
      (process_auths probeEnv cert account [url] n).2 = .error "") := by
  refine ⟨fun account data url n => rfl,
    fun account url n => ⟨rfl, rfl, ?_⟩, ?_, ?_⟩
  · intro h
    have hpay := congrArg SignedBody.payload h
    simp [set_empty_data_builder, set_data_builder, encode_kid] at hpay
  · intro cert account auth ch n heq
    simp [process_challenge, heq, probeEnv, exEnv, set_data_builder, encode_kid]
  · intro cert account url n
    simp [process_auths, probeEnv, exEnv, callEv, andThen,
      set_empty_data_builder, set_data_builder, encode_kid]

/-- Witness for claim C8: the challenge-acceptance POST of a concrete
matched challenge is built with the literal empty-object payload. -/
theorem claim8_signed_request_builder_witness :
    (process_challenge probeEnv exCert ⟨"key", "kid"⟩ exAuthPending
      (structs.Challenge.Http01 ⟨"tok", "ch-url"⟩) "n0").2 = .error "\x7b\x7d" :=
  claim8_signed_request_builder.2.2.1 exCert ⟨"key", "kid"⟩ exAuthPending
    (structs.Challenge.Http01 ⟨"tok", "ch-url"⟩) "n0" (by decide)

/-- Claim C3: equality between a configured challenge and a server-offered
challenge holds iff their variant kinds agree, regardless of the offered
challenge's token or URL; a configured Dns01 never matches an offered
Http01 or TlsAlpn01; and during authorization processing an offered
challenge is acted upon (hook invoked, acceptance POSTed) iff this variant
equality holds. -/
theorem claim3_variant_equality (c : Challenge) (w : structs.Challenge) :
    (Challenge.eq c w = true ↔ c = wire_kind w) ∧
    (∀ (d : structs.ChallengeData),
      Challenge.eq Challenge.Dns01 (structs.Challenge.Http01 d) = false ∧
      Challenge.eq Challenge.Dns01 (structs.Challenge.TlsAlpn01 d) = false) ∧
    (∀ (env : Env) (cert : Certificate) (account : Account)
        (auth : Authorization) (n : Nonce), cert.challenge = c →
      (Challenge.eq c w = false →
        process_challenge env cert account auth w n = ([], .ok n)) ∧
      (Challenge.eq c w = true → ∀ tr n2,
        process_challenge env cert account auth w n = (tr, .ok n2) →
        (∃ fn pf dm, Event.challenge_hook fn pf dm ∈ tr) ∧
        ∃ u r, Event.challenge_post w.get_url u r ∈ tr)) := by
  refine ⟨?_, fun d => ⟨rfl, rfl⟩, ?_⟩
  · cases c <;> cases w <;> simp [Challenge.eq, wire_kind]
  · intro env cert account auth n hc
    constructor
    · intro hne
      rw [process_challenge, hc]
      simp [hne]
    · intro heq tr n2 hres
      rw [process_challenge, hc] at hres
      rw [if_pos heq] at hres
      cases hpf : env.get_proof w account.priv_key with
      | error e => rw [hpf] at hres; simp at hres
      | ok proof =>
        rw [hpf] at hres
        simp only [] at hres
        cases hhk : env.call_challenge_hooks cert (env.get_file_name w) proof
            auth.identifier.value with
        | error e => rw [hhk] at hres; simp at hres
        | ok u =>
          rw [hhk] at hres
          cases hpo : env.post_challenge_response w.get_url
              (set_data_builder account "\x7b\x7d" w.get_url) n with
          | error e => rw [hpo] at hres; simp at hres
          | ok n3 =>
            rw [hpo] at hres
            obtain ⟨htr, hn⟩ := Prod.mk.inj hres
            subst htr
            refine ⟨⟨env.get_file_name w, proof, auth.identifier.value, ?_⟩,
              n, n3, ?_⟩ <;> simp

/-- Witness for claim C3: at a concrete matched http-01 challenge the hook
and the acceptance POST are both recorded. -/
theorem claim3_variant_equality_witness :
    (∃ fn pf dm, Event.challenge_hook fn pf dm ∈
      (process_challenge exEnv exCert ⟨"key", "kid"⟩ exAuthPending
        (structs.Challenge.Http01 ⟨"tok", "ch-url"⟩) "n0").1) ∧
    ∃ u r, Event.challenge_post
        (structs.Challenge.Http01 ⟨"tok", "ch-url"⟩).get_url u r ∈
      (process_challenge exEnv exCert ⟨"key", "kid"⟩ exAuthPending
        (structs.Challenge.Http01 ⟨"tok", "ch-url"⟩) "n0").1 :=
  ((claim3_variant_equality Challenge.Http01
      (structs.Challenge.Http01 ⟨"tok", "ch-url"⟩)).2.2 exEnv exCert
    ⟨"key", "kid"⟩ exAuthPending "n0" rfl).2 (by decide) _ _ rfl

/-- Claim C10: for a matched challenge the steps occur in the fixed order
proof derivation, then hook invocation, then acceptance POST; an error
from proof derivation or from the hook is returned immediately and the
acceptance POST is never sent — the POST happens only after the hook
succeeded. -/
theorem claim10_challenge_step_order (env : Env) (cert : Certificate)
    (account : Account) (auth : Authorization) (ch : structs.Challenge)
    (n : Nonce) (heq : Challenge.eq cert.challenge ch = true) :
    (∀ e, env.get_proof ch account.priv_key = .error e →
      process_challenge env cert account auth ch n = ([], .error e)) ∧
    (∀ proof, env.get_proof ch account.priv_key = .ok proof →
      (∀ e, env.call_challenge_hooks cert (env.get_file_name ch) proof
          auth.identifier.value = .error e →
        process_challenge env cert account auth ch n =
          ([Event.proof_computed ch proof], .error e)) ∧
      (env.call_challenge_hooks cert (env.get_file_name ch) proof
          auth.identifier.value = .ok () →
        (∀ e, env.post_challenge_response ch.get_url
            (set_data_builder account "\x7b\x7d" ch.get_url) n = .error e →
          process_challenge env cert account auth ch n =
            ([Event.proof_computed ch proof,
              Event.challenge_hook (env.get_file_name ch) proof
                auth.identifier.value], .error e)) ∧
        (∀ n2, env.post_challenge_response ch.get_url
            (set_data_builder account "\x7b\x7d" ch.get_url) n = .ok n2 →
          process_challenge env cert account auth ch n =
            ([Event.proof_computed ch proof,
              Event.challenge_hook (env.get_file_name ch) proof
                auth.identifier.value,
              Event.challenge_post ch.get_url n n2], .ok n2)))) := by
  refine ⟨?_, ?_⟩
  · intro e he
    simp [process_challenge, heq, he]
  · intro proof hpf
    refine ⟨?_, ?_⟩
    · intro e he
      simp [process_challenge, heq, hpf, he]
    · intro hhk
      refine ⟨?_, ?_⟩
      · intro e he
        simp [process_challenge, heq, hpf, hhk, he]
      · intro n2 he
        simp [process_challenge, heq, hpf, hhk, he]

/-- Witness for claim C10: with a failing hook, the run of one matched
challenge returns the hook's error after the proof step and records no
acceptance POST. -/
theorem claim10_challenge_step_order_witness :
    process_challenge hookFailEnv exCert ⟨"key", "kid"⟩ exAuthPending
      (structs.Challenge.Http01 ⟨"tok", "ch-url"⟩) "n0" =
      ([Event.proof_computed (structs.Challenge.Http01 ⟨"tok", "ch-url"⟩)
          "proof"], .error "hook failed") :=
  (((claim10_challenge_step_order hookFailEnv exCert ⟨"key", "kid"⟩
      exAuthPending (structs.Challenge.Http01 ⟨"tok", "ch-url"⟩) "n0"
      (by decide)).2 "proof" rfl).1 "hook failed" rfl)

theorem andThen_nil_ok {α β : Type} (a : α) (k : α → List Event × Except Error β) :
    andThen ([], .ok a) k = k a := by
  simp [andThen]

theorem process_challenges_no_match (env : Env) (cert : Certificate)
    (account : Account) (auth : Authorization) :
    ∀ (chs : List structs.Challenge) (n : Nonce),
    (∀ ch ∈ chs, Challenge.eq cert.challenge ch = false) →
    process_challenges env cert account auth chs n = ([], .ok n) := by
  intro chs
  induction chs with
  | nil => intro n _; rfl
  | cons ch rest ih =>
    intro n hnm
    rw [process_challenges]
    have h1 : process_challenge env cert account auth ch n = ([], .ok n) := by
      simp [process_challenge, hnm ch (by simp)]
    rw [h1, andThen_nil_ok]
    exact ih n (fun c hc => hnm c (by simp [hc]))

/-- Claim C9: for a pending authorization none of whose offered challenges
matches the configured variant, the orchestrator performs no proof
computation, invokes no hook and sends no acceptance POST, and proceeds
directly to polling the authorization URL instead of failing fast. -/
theorem claim9_no_matching_challenge (env : Env) (cert : Certificate)
    (account : Account) (auth_url : String) (auth : Authorization) (n : Nonce)
    (hp : auth.status = AuthorizationStatus.Pending)
    (hnm : ∀ ch ∈ auth.challenges, Challenge.eq cert.challenge ch = false) :
    handle_auth env cert account auth_url auth n =
      pool_auth_step env account auth_url n ∧
    ∀ e ∈ (handle_auth env cert account auth_url auth n).1,
      ∃ a u r, e = Event.auth_poll auth_url a u r := by
  have hv : auth.status ≠ AuthorizationStatus.Valid := by rw [hp]; decide
  have heq : handle_auth env cert account auth_url auth n =
      pool_auth_step env account auth_url n := by
    rw [handle_auth, if_neg hv, if_neg (not_not_intro hp),
      process_challenges_no_match env cert account auth auth.challenges n hnm,
      andThen_nil_ok]
  refine ⟨heq, ?_⟩
  rw [heq]
  unfold pool_auth_step
  cases hpa : env.pool_auth auth_url (set_empty_data_builder account auth_url)
      (fun a => decide (a.status = AuthorizationStatus.Valid)) n with
  | error e => intro e he; simp at he
  | ok p =>
    intro e he
    simp at he
    exact ⟨p.1, n, p.2, he⟩

/-- Witness for claim C9 at a concrete non-matching authorization. -/
theorem claim9_no_matching_challenge_witness :
    handle_auth exEnv exCert ⟨"key", "kid"⟩ "auth1" exAuthNoMatch "n0" =
      pool_auth_step exEnv ⟨"key", "kid"⟩ "auth1" "n0" :=
  (claim9_no_matching_challenge exEnv exCert ⟨"key", "kid"⟩ "auth1"
    exAuthNoMatch "n0" (by decide) (by decide)).1

theorem mem_andThen {α β : Type} {step : List Event × Except Error α}
    {k : α → List Event × Except Error β} {e : Event}
    (h : e ∈ (andThen step k).1) :
    e ∈ step.1 ∨ ∃ a, step.2 = .ok a ∧ e ∈ (k a).1 := by
  rcases step with ⟨tr, r⟩
  cases r with
  | error er => simp [andThen] at h; exact Or.inl h
  | ok a =>
    rcases hk : k a with ⟨tr2, r2⟩
    rw [andThen, hk] at h
    rcases List.mem_append.mp h with h | h
    · exact Or.inl h
    · exact Or.inr ⟨a, rfl, by rw [hk]; exact h⟩

theorem process_challenge_kinds (env : Env) (cert : Certificate)
    (account : Account) (auth : Authorization) (ch : structs.Challenge)
    (n : Nonce) : ∀ e ∈ (process_challenge env cert account auth ch n).1,
    e.kind = EKind.kproof ∨ e.kind = EKind.khook ∨ e.kind = EKind.kcpost := by
  by_cases hm : Challenge.eq cert.challenge ch = true
  · cases hpf : env.get_proof ch account.priv_key with
    | error e => simp [process_challenge, hm, hpf]
    | ok proof =>
      cases hhk : env.call_challenge_hooks cert (env.get_file_name ch) proof
          auth.identifier.value with
      | error e => simp [process_challenge, hm, hpf, hhk, Event.kind]
      | ok u =>
        cases hpo : env.post_challenge_response ch.get_url
            (set_data_builder account "\x7b\x7d" ch.get_url) n with
        | error e => simp [process_challenge, hm, hpf, hhk, hpo, Event.kind]
        | ok n2 => simp [process_challenge, hm, hpf, hhk, hpo, Event.kind]
  · simp [process_challenge, hm]

theorem process_challenges_kinds (env : Env) (cert : Certificate)
    (account : Account) (auth : Authorization) :
    ∀ (chs : List structs.Challenge) (n : Nonce),
    ∀ e ∈ (process_challenges env cert account auth chs n).1,
    e.kind = EKind.kproof ∨ e.kind = EKind.khook ∨ e.kind = EKind.kcpost := by
  intro chs
  induction chs with
  | nil => intro n e he; simp [process_challenges] at he
  | cons ch rest ih =>
    intro n e he
    rw [process_challenges] at he
    rcases mem_andThen he with h | ⟨a, _, h⟩
    · exact process_challenge_kinds env cert account auth ch n e h
    · exact ih a e h

theorem pool_auth_step_kinds (env : Env) (account : Account)
    (auth_url : String) (n : Nonce) :
    ∀ e ∈ (pool_auth_step env account auth_url n).1, e.kind = EKind.kapoll := by
  unfold pool_auth_step
  cases hpa : env.pool_auth auth_url (set_empty_data_builder account auth_url)
      (fun a => decide (a.status = AuthorizationStatus.Valid)) n with
  | error e => simp
  | ok p => simp [Event.kind]

theorem handle_auth_kinds (env : Env) (cert : Certificate) (account : Account)
    (auth_url : String) (auth : Authorization) (n : Nonce) :
    ∀ e ∈ (handle_auth env cert account auth_url auth n).1,
    e.kind = EKind.kproof ∨ e.kind = EKind.khook ∨ e.kind = EKind.kcpost ∨
      e.kind = EKind.kapoll := by
  by_cases hv : auth.status = AuthorizationStatus.Valid
  · rw [handle_auth, if_pos hv]; intro e he; simp at he
  · by_cases hp : auth.status = AuthorizationStatus.Pending
    · rw [handle_auth, if_neg hv, if_neg (not_not_intro hp)]
      intro e he
      rcases mem_andThen he with h | ⟨a, _, h⟩
      · rcases process_challenges_kinds env cert account auth auth.challenges n
          e h with h1 | h1 | h1 <;> simp [h1]
      · simp [pool_auth_step_kinds env account auth_url a e h]
    · rw [handle_auth, if_neg hv, if_pos hp]; intro e he; simp at he

theorem process_auths_kinds (env : Env) (cert : Certificate) (account : Account) :
    ∀ (urls : List String) (n : Nonce),
    ∀ e ∈ (process_auths env cert account urls n).1,
    e.kind = EKind.kafetch ∨ e.kind = EKind.kproof ∨ e.kind = EKind.khook ∨
      e.kind = EKind.kcpost ∨ e.kind = EKind.kapoll := by
  intro urls
  induction urls with
  | nil => intro n e he; simp [process_auths] at he
  | cons url rest ih =>
    intro n e he
    rw [process_auths] at he
    rcases mem_andThen he with h | ⟨a, _, h⟩
    · rcases mem_andThen h with h2 | ⟨p, _, h2⟩
      · cases hga : env.get_auth url (set_empty_data_builder account url) n with
        | error er => rw [hga] at h2; simp [callEv] at h2
        | ok p =>
          rw [hga] at h2
          simp [callEv] at h2
          simp [h2, Event.kind]
      · rcases handle_auth_kinds env cert account url p.1 p.2 e h2
          with h1 | h1 | h1 | h1 <;> simp [h1]
    · exact ih a e h

theorem download_steps_kinds (env : Env) (cert : Certificate)
    (account : Account) (order_url : String) (n : Nonce) :
    ∀ e ∈ (download_steps env cert account order_url n).1,
    e.kind = EKind.kovalid ∨ e.kind = EKind.kcdl ∨ e.kind = EKind.kstore := by
  unfold download_steps
  intro e he
  rcases mem_andThen he with h | ⟨pv, _, h⟩
  · cases hpv : env.pool_order order_url (set_empty_data_builder account order_url)
        (fun o => decide (o.status = OrderStatus.Valid)) n with
    | error er => rw [hpv] at h; simp [callEv] at h
    | ok p =>
      rw [hpv] at h
      simp [callEv] at h
      simp [h, Event.kind]
  · cases hc : pv.1.certificate with
    | none => rw [hc] at h; simp at h
    | some crt_url =>
      rw [hc] at h
      rcases mem_andThen h with h2 | ⟨c, _, h2⟩
      · cases hgc : env.get_certificate crt_url
            (set_empty_data_builder account crt_url) pv.2 with
        | error er => rw [hgc] at h2; simp [callEv] at h2
        | ok p =>
          rw [hgc] at h2
          simp [callEv] at h2
          simp [h2, Event.kind]
      · cases hw : env.write_certificate cert c.1 with
        | error er => rw [hw] at h2; simp [callEv] at h2
        | ok u =>
          rw [hw] at h2
          simp [callEv] at h2
          simp [h2, Event.kind]

theorem finalize_steps_kinds (env : Env) (cert : Certificate)
    (account : Account) (order_url : String) (n : Nonce) :
    ∀ e ∈ (finalize_steps env cert account order_url n).1,
    e.kind = EKind.koready ∨ e.kind = EKind.kfin ∨ e.kind = EKind.kovalid ∨
      e.kind = EKind.kcdl ∨ e.kind = EKind.kstore := by
  unfold finalize_steps
  intro e he
  rcases mem_andThen he with h | ⟨pr, _, h⟩
  · cases hpr : env.pool_order order_url (set_empty_data_builder account order_url)
        (fun o => decide (o.status = OrderStatus.Ready)) n with
    | error er => rw [hpr] at h; simp [callEv] at h
    | ok p =>
      rw [hpr] at h
      simp [callEv] at h
      simp [h, Event.kind]
  · rcases mem_andThen h with h2 | ⟨kp, _, h2⟩
    · simp [callEv0] at h2
    · rcases mem_andThen h2 with h3 | ⟨csr, _, h3⟩
      · simp [callEv0] at h3
      · rcases mem_andThen h3 with h4 | ⟨q, _, h4⟩
        · cases hgo : env.get_order pr.1.finalize
              (set_data_builder account csr pr.1.finalize) pr.2 with
          | error er => rw [hgo] at h4; simp [callEv] at h4
          | ok p =>
            rw [hgo] at h4
            simp [callEv] at h4
            simp [h4, Event.kind]
        · rcases download_steps_kinds env cert account order_url q.2 e h4
            with h5 | h5 | h5 <;> simp [h5]

theorem handle_auth_valid (env : Env) (cert : Certificate) (account : Account)
    (url : String) (a : Authorization) (n : Nonce)
    (hv : a.status = AuthorizationStatus.Valid) :
    handle_auth env cert account url a n = ([], .ok n) := by
  rw [handle_auth, if_pos hv]

theorem handle_auth_bad (env : Env) (cert : Certificate) (account : Account)
    (url : String) (a : Authorization) (n : Nonce)
    (hv : a.status ≠ AuthorizationStatus.Valid)
    (hp : a.status ≠ AuthorizationStatus.Pending) :
    handle_auth env cert account url a n =
      ([], .error (a.identifier.value ++ ": authorization status is " ++
        a.status.display)) := by
  rw [handle_auth, if_neg hv, if_pos hp]

theorem process_auths_cons_err (env : Env) (cert : Certificate)
    (account : Account) (url0 : String) (rest : List String) (n : Nonce)
    (e : Error)
    (hga : env.get_auth url0 (set_empty_data_builder account url0) n = .error e) :
    process_auths env cert account (url0 :: rest) n = ([], .error e) := by
  simp [process_auths, hga, callEv, andThen]

theorem process_auths_cons_ok_err (env : Env) (cert : Certificate)
    (account : Account) (url0 : String) (rest : List String) (n : Nonce)
    (p : Authorization × Nonce) (trh : List Event) (eh : Error)
    (hga : env.get_auth url0 (set_empty_data_builder account url0) n = .ok p)
    (hh : handle_auth env cert account url0 p.1 p.2 = (trh, .error eh)) :
    process_auths env cert account (url0 :: rest) n =
      (Event.auth_fetch url0 p.1 n p.2 :: trh, .error eh) := by
  simp [process_auths, hga, hh, callEv, andThen]

theorem process_auths_cons_ok_ok (env : Env) (cert : Certificate)
    (account : Account) (url0 : String) (rest : List String) (n : Nonce)
    (p : Authorization × Nonce) (trh : List Event) (nh : Nonce)
    (hga : env.get_auth url0 (set_empty_data_builder account url0) n = .ok p)
    (hh : handle_auth env cert account url0 p.1 p.2 = (trh, .ok nh)) :
    process_auths env cert account (url0 :: rest) n =
      (Event.auth_fetch url0 p.1 n p.2 ::
        (trh ++ (process_auths env cert account rest nh).1),
       (process_auths env cert account rest nh).2) := by
  simp [process_auths, hga, hh, callEv, andThen]

theorem process_auths_bad (env : Env) (cert : Certificate) (account : Account) :
    ∀ (urls : List String) (n : Nonce) (url : String) (a : Authorization)
      (u rr : Nonce),
    Event.auth_fetch url a u rr ∈ (process_auths env cert account urls n).1 →
    a.status ≠ AuthorizationStatus.Valid →
    a.status ≠ AuthorizationStatus.Pending →
    (process_auths env cert account urls n).2 =
      .error (a.identifier.value ++ ": authorization status is " ++
        a.status.display) ∧
    ∃ t1, (process_auths env cert account urls n).1 =
      t1 ++ [Event.auth_fetch url a u rr] := by
  intro urls
  induction urls with
  | nil =>
    intro n url a u rr hmem hv hp
    simp [process_auths] at hmem
  | cons url0 rest ih =>
    intro n url a u rr hmem hv hp
    cases hga : env.get_auth url0 (set_empty_data_builder account url0) n with
    | error e =>
      rw [process_auths_cons_err env cert account url0 rest n e hga] at hmem
      simp at hmem
    | ok p =>
      rcases hh : handle_auth env cert account url0 p.1 p.2 with ⟨trh, rh⟩
      cases rh with
      | error eh =>
        rw [process_auths_cons_ok_err env cert account url0 rest n p trh eh
          hga hh] at hmem
        rcases List.mem_cons.mp hmem with hev | hmem2
        · injection hev with i1 i2 i3 i4
          rw [i2] at hv hp
          have hbad := handle_auth_bad env cert account url0 p.1 p.2 hv hp
          have hcmp := hh.symm.trans hbad
          obtain ⟨htr, herr⟩ := Prod.mk.inj hcmp
          refine ⟨?_, [], ?_⟩
          · rw [process_auths_cons_ok_err env cert account url0 rest n p trh eh
              hga hh, i2]
            exact herr
          · rw [process_auths_cons_ok_err env cert account url0 rest n p trh eh
              hga hh, htr, i1, i2, i3, i4]
            rfl
        · have hmem2h : Event.auth_fetch url a u rr ∈
              (handle_auth env cert account url0 p.1 p.2).1 := by
            rw [hh]; exact hmem2
          have hk := handle_auth_kinds env cert account url0 p.1 p.2 _ hmem2h
          simp [Event.kind] at hk
      | ok nh =>
        rw [process_auths_cons_ok_ok env cert account url0 rest n p trh nh
          hga hh] at hmem
        rcases List.mem_cons.mp hmem with hev | hmem2
        · exfalso
          injection hev with i1 i2 i3 i4
          rw [i2] at hv hp
          have hbad := handle_auth_bad env cert account url0 p.1 p.2 hv hp
          have hcmp := hh.symm.trans hbad
          obtain ⟨htr, herr⟩ := Prod.mk.inj hcmp
          simp at herr
        · rcases List.mem_append.mp hmem2 with hmem3 | hmem3
          · exfalso
            have hmem3h : Event.auth_fetch url a u rr ∈
                (handle_auth env cert account url0 p.1 p.2).1 := by
              rw [hh]; exact hmem3
            have hk := handle_auth_kinds env cert account url0 p.1 p.2 _ hmem3h
            simp [Event.kind] at hk
          · obtain ⟨hres, t1, ht1⟩ := ih nh url a u rr hmem3 hv hp
            rw [process_auths_cons_ok_ok env cert account url0 rest n p trh nh
              hga hh]
            refine ⟨hres, Event.auth_fetch url0 p.1 n p.2 :: (trh ++ t1), ?_⟩
            rw [ht1]
            simp

theorem andThen_error {α β : Type} (step : List Event × Except Error α)
    (k : α → List Event × Except Error β) (e : Error) (h : step.2 = .error e) :
    andThen step k = (step.1, .error e) := by
  rcases step with ⟨tr, r⟩
  cases r with
  | error er =>
    simp at h
    rw [andThen, h]
  | ok a => simp at h

theorem request_certificate_err_dir (env : Env) (cert : Certificate) (e : Error)
    (hd : env.get_directory cert.remote_url = .error e) :
    request_certificate env cert = ([], .error e) := by
  simp [request_certificate, hd]

theorem request_certificate_err_nonce (env : Env) (cert : Certificate)
    (directory : Directory) (e : Error)
    (hd : env.get_directory cert.remote_url = .ok directory)
    (hn : env.get_nonce directory.new_nonce = .error e) :
    request_certificate env cert =
      ([Event.get_directory cert.remote_url directory], .error e) := by
  simp [request_certificate, hd, hn]

theorem request_certificate_ok (env : Env) (cert : Certificate)
    (directory : Directory) (nonce : Nonce)
    (hd : env.get_directory cert.remote_url = .ok directory)
    (hn : env.get_nonce directory.new_nonce = .ok nonce) :
    request_certificate env cert =
      (Event.get_directory cert.remote_url directory ::
        Event.first_nonce nonce :: (issuance_steps env cert directory nonce).1,
       (issuance_steps env cert directory nonce).2) := by
  simp [request_certificate, hd, hn]

theorem issuance_err_account (env : Env) (cert : Certificate)
    (directory : Directory) (n : Nonce) (e : Error)
    (hap : env.account_new cert directory n = .error e) :
    issuance_steps env cert directory n = ([], .error e) := by
  simp [issuance_steps, hap, callEv, andThen]

theorem issuance_err_neworder (env : Env) (cert : Certificate)
    (directory : Directory) (n : Nonce) (ap : Account × Nonce) (e : Error)
    (hap : env.account_new cert directory n = .ok ap)
    (hno : env.to_string_new_order cert.domains = .error e) :
    issuance_steps env cert directory n =
      ([Event.account_new n ap.2], .error e) := by
  simp [issuance_steps, hap, hno, callEv, callEv0, andThen]

theorem issuance_err_objloc (env : Env) (cert : Certificate)
    (directory : Directory) (n : Nonce) (ap : Account × Nonce)
    (no : String) (e : Error)
    (hap : env.account_new cert directory n = .ok ap)
    (hno : env.to_string_new_order cert.domains = .ok no)
    (hol : env.get_obj_loc directory.new_order
      (set_data_builder ap.1 no directory.new_order) ap.2 = .error e) :
    issuance_steps env cert directory n =
      ([Event.account_new n ap.2], .error e) := by
  simp [issuance_steps, hap, hno, hol, callEv, callEv0, andThen]

theorem issuance_ok (env : Env) (cert : Certificate) (directory : Directory)
    (n : Nonce) (ap : Account × Nonce) (no : String)
    (q : Order × String × Nonce)
    (hap : env.account_new cert directory n = .ok ap)
    (hno : env.to_string_new_order cert.domains = .ok no)
    (hol : env.get_obj_loc directory.new_order
      (set_data_builder ap.1 no directory.new_order) ap.2 = .ok q) :
    issuance_steps env cert directory n =
      (Event.account_new n ap.2 :: Event.order_created q.1 q.2.1 ap.2 q.2.2 ::
        (andThen (process_auths env cert ap.1 q.1.authorizations q.2.2)
          (fun n4 => finalize_steps env cert ap.1 q.2.1 n4)).1,
       (andThen (process_auths env cert ap.1 q.1.authorizations q.2.2)
          (fun n4 => finalize_steps env cert ap.1 q.2.1 n4)).2) := by
  simp [issuance_steps, hap, hno, hol, callEv, callEv0, andThen]

/-- Claim C2: a fetched authorization with status valid is skipped (no
challenge handling, no polling for it); one whose status is neither valid
nor pending aborts the run immediately with a protocol-state error whose
message preserves the identifier and the reported status — the bad fetch
is the last event of the run, so no challenge hook runs for it and
finalize is never attempted; only pending proceeds to challenge
handling. -/
theorem claim2_authorization_status_gate (env : Env) (cert : Certificate) :
    (∀ (account : Account) (auth_url : String) (auth : Authorization)
        (n : Nonce),
      (auth.status = AuthorizationStatus.Valid →
        handle_auth env cert account auth_url auth n = ([], .ok n)) ∧
      (auth.status ≠ AuthorizationStatus.Valid →
        auth.status ≠ AuthorizationStatus.Pending →
        handle_auth env cert account auth_url auth n =
          ([], .error (auth.identifier.value ++ ": authorization status is " ++
            auth.status.display)))) ∧
    (∀ (url : String) (a : Authorization) (u rr : Nonce),
      Event.auth_fetch url a u rr ∈ (request_certificate env cert).1 →
      a.status ≠ AuthorizationStatus.Valid →
      a.status ≠ AuthorizationStatus.Pending →
      (request_certificate env cert).2 =
        .error (a.identifier.value ++ ": authorization status is " ++
          a.status.display) ∧
      (∃ t1, (request_certificate env cert).1 =
        t1 ++ [Event.auth_fetch url a u rr]) ∧
      (∀ uf rf, Event.finalize_post uf rf ∉ (request_certificate env cert).1)) := by
  refine ⟨?_, ?_⟩
  · intro account auth_url auth n
    exact ⟨fun hv => handle_auth_valid env cert account auth_url auth n hv,
      fun hv hp => handle_auth_bad env cert account auth_url auth n hv hp⟩
  · intro url a u rr hmem hv hp
    cases hd : env.get_directory cert.remote_url with
    | error e =>
      rw [request_certificate_err_dir env cert e hd] at hmem
      simp at hmem
    | ok directory =>
      cases hn : env.get_nonce directory.new_nonce with
      | error e =>
        rw [request_certificate_err_nonce env cert directory e hd hn] at hmem
        simp at hmem
      | ok nonce =>
        rw [request_certificate_ok env cert directory nonce hd hn] at hmem ⊢
        cases hap : env.account_new cert directory nonce with
        | error e =>
          rw [issuance_err_account env cert directory nonce e hap] at hmem
          simp at hmem
        | ok ap =>
          cases hno : env.to_string_new_order cert.domains with
          | error e =>
            rw [issuance_err_neworder env cert directory nonce ap e hap hno]
              at hmem
            simp at hmem
          | ok no =>
            cases hol : env.get_obj_loc directory.new_order
                (set_data_builder ap.1 no directory.new_order) ap.2 with
            | error e =>
              rw [issuance_err_objloc env cert directory nonce ap no e
                hap hno hol] at hmem
              simp at hmem
            | ok q =>
              rw [issuance_ok env cert directory nonce ap no q hap hno hol]
                at hmem ⊢
              rcases List.mem_cons.mp hmem with hev | hmem2
              · simp at hev
              rcases List.mem_cons.mp hmem2 with hev | hmem3
              · simp at hev
              rcases List.mem_cons.mp hmem3 with hev | hmem3a
              · simp at hev
              rcases List.mem_cons.mp hmem3a with hev | hmem3b
              · simp at hev
              rcases mem_andThen hmem3b with hmem4 | ⟨n4, hok, hmem4⟩
              · obtain ⟨hres, t1, ht1⟩ := process_auths_bad env cert ap.1
                  q.1.authorizations q.2.2 url a u rr hmem4 hv hp
                have hand := andThen_error
                  (process_auths env cert ap.1 q.1.authorizations q.2.2)
                  (fun n4 => finalize_steps env cert ap.1 q.2.1 n4) _ hres
                rw [hand]
                refine ⟨rfl, ?_, ?_⟩
                · refine ⟨Event.get_directory cert.remote_url directory ::
                    Event.first_nonce nonce :: Event.account_new nonce ap.2 ::
                    Event.order_created q.1 q.2.1 ap.2 q.2.2 :: t1, ?_⟩
                  rw [ht1]
                  simp
                · intro uf rf hmemf
                  rcases List.mem_cons.mp hmemf with hef | hmemf
                  · simp at hef
                  rcases List.mem_cons.mp hmemf with hef | hmemf
                  · simp at hef
                  rcases List.mem_cons.mp hmemf with hef | hmemf
                  · simp at hef
                  rcases List.mem_cons.mp hmemf with hef | hmemf
                  · simp at hef
                  have hk := process_auths_kinds env cert ap.1
                    q.1.authorizations q.2.2 _ hmemf
                  simp [Event.kind] at hk
              · exfalso
                have hk := finalize_steps_kinds env cert ap.1 q.2.1 n4 _ hmem4
                simp [Event.kind] at hk

/-- Witness for claim C2: a concrete run whose authorization fetch returns
status invalid aborts with the protocol-state error, ends at that fetch,
and never reaches finalize. -/
theorem claim2_authorization_status_gate_witness :
    (request_certificate badAuthEnv exCert).2 =
      .error (exAuthInvalid.identifier.value ++ ": authorization status is " ++
        exAuthInvalid.status.display) ∧
    (∃ t1, (request_certificate badAuthEnv exCert).1 =
      t1 ++ [Event.auth_fetch "auth1" exAuthInvalid "nxx" "nxxx"]) ∧
    (∀ uf rf, Event.finalize_post uf rf ∉
      (request_certificate badAuthEnv exCert).1) :=
  (claim2_authorization_status_gate badAuthEnv exCert).2 "auth1" exAuthInvalid
    "nxx" "nxxx" (by decide) (by decide) (by decide)

theorem andThen_ok {α β : Type} (step : List Event × Except Error α)
    (k : α → List Event × Except Error β) (a : α) (h : step.2 = .ok a) :
    andThen step k = (step.1 ++ (k a).1, (k a).2) := by
  rcases step with ⟨tr, r⟩
  cases r with
  | error er => simp at h
  | ok b =>
    simp at h
    subst h
    rcases hk : k b with ⟨tr2, r2⟩
    simp [andThen, hk]

theorem download_steps_facts (env : Env) (cert : Certificate)
    (account : Account) (order_url : String) (n : Nonce) :
    (∀ (o : Order) (u r : Nonce),
      Event.order_poll_valid o u r ∈ (download_steps env cert account order_url n).1 →
      o.certificate = none →
      (download_steps env cert account order_url n).2 =
        .error "No certificate available for download." ∧
      (∀ c, Event.storage_write c ∉ (download_steps env cert account order_url n).1) ∧
      (∀ c uc rc, Event.cert_download c uc rc ∉
        (download_steps env cert account order_url n).1)) ∧
    (∀ c, Event.storage_write c ∈ (download_steps env cert account order_url n).1 →
      ∃ o u r, Event.order_poll_valid o u r ∈
          (download_steps env cert account order_url n).1 ∧
        ∃ curl, o.certificate = some curl) := by
  cases hpv : env.pool_order order_url (set_empty_data_builder account order_url)
      (fun o => decide (o.status = OrderStatus.Valid)) n with
  | error e =>
    have hd : download_steps env cert account order_url n = ([], .error e) := by
      simp [download_steps, hpv, callEv, andThen]
    rw [hd]
    exact ⟨fun o u r hmem => by simp at hmem, fun c hmem => by simp at hmem⟩
  | ok pv =>
    cases hc : pv.1.certificate with
    | none =>
      have hd : download_steps env cert account order_url n =
          ([Event.order_poll_valid pv.1 n pv.2],
            .error "No certificate available for download.") := by
        simp [download_steps, hpv, hc, callEv, andThen]
      rw [hd]
      constructor
      · intro o u r hmem hnone
        refine ⟨rfl, fun c hm => by simp at hm, fun c uc rc hm => by simp at hm⟩
      · intro c hmem
        simp at hmem
    | some crt_url =>
      cases hgc : env.get_certificate crt_url
          (set_empty_data_builder account crt_url) pv.2 with
      | error e =>
        have hd : download_steps env cert account order_url n =
            ([Event.order_poll_valid pv.1 n pv.2], .error e) := by
          simp [download_steps, hpv, hc, hgc, callEv, andThen]
        rw [hd]
        constructor
        · intro o u r hmem hnone
          simp at hmem
          rw [hmem.1] at hnone
          rw [hnone] at hc
          cases hc
        · intro c hmem
          simp at hmem
      | ok cp =>
        cases hw : env.write_certificate cert cp.1 with
        | error e =>
          have hd : download_steps env cert account order_url n =
              ([Event.order_poll_valid pv.1 n pv.2,
                Event.cert_download cp.1 pv.2 cp.2], .error e) := by
            simp [download_steps, hpv, hc, hgc, hw, callEv, andThen]
          rw [hd]
          constructor
          · intro o u r hmem hnone
            simp at hmem
            rw [hmem.1] at hnone
            rw [hnone] at hc
            cases hc
          · intro c hmem
            simp at hmem
        | ok uu =>
          have hd : download_steps env cert account order_url n =
              ([Event.order_poll_valid pv.1 n pv.2,
                Event.cert_download cp.1 pv.2 cp.2,
                Event.storage_write cp.1], .ok uu) := by
            simp [download_steps, hpv, hc, hgc, hw, callEv, andThen]
          rw [hd]
          constructor
          · intro o u r hmem hnone
            simp at hmem
            rw [hmem.1] at hnone
            rw [hnone] at hc
            cases hc
          · intro c hmem
            exact ⟨pv.1, n, pv.2, by simp, crt_url, hc⟩

theorem finalize_err_poll (env : Env) (cert : Certificate) (account : Account)
    (order_url : String) (n : Nonce) (e : Error)
    (hpr : env.pool_order order_url (set_empty_data_builder account order_url)
      (fun o => decide (o.status = OrderStatus.Ready)) n = .error e) :
    finalize_steps env cert account order_url n = ([], .error e) := by
  simp [finalize_steps, hpr, callEv, andThen]

theorem finalize_err_keys (env : Env) (cert : Certificate) (account : Account)
    (order_url : String) (n : Nonce) (pr : Order × Nonce) (e : Error)
    (hpr : env.pool_order order_url (set_empty_data_builder account order_url)
      (fun o => decide (o.status = OrderStatus.Ready)) n = .ok pr)
    (hkp : env.get_key_pair cert = .error e) :
    finalize_steps env cert account order_url n =
      ([Event.order_poll_ready pr.1 n pr.2], .error e) := by
  simp [finalize_steps, hpr, hkp, callEv, callEv0, andThen]

theorem finalize_err_csr (env : Env) (cert : Certificate) (account : Account)
    (order_url : String) (n : Nonce) (pr : Order × Nonce)
    (kp : String × String) (e : Error)
    (hpr : env.pool_order order_url (set_empty_data_builder account order_url)
      (fun o => decide (o.status = OrderStatus.Ready)) n = .ok pr)
    (hkp : env.get_key_pair cert = .ok kp)
    (hcsr : env.generate_csr cert kp.1 kp.2 = .error e) :
    finalize_steps env cert account order_url n =
      ([Event.order_poll_ready pr.1 n pr.2], .error e) := by
  simp [finalize_steps, hpr, hkp, hcsr, callEv, callEv0, andThen]

theorem finalize_err_order (env : Env) (cert : Certificate) (account : Account)
    (order_url : String) (n : Nonce) (pr : Order × Nonce)
    (kp : String × String) (csr : String) (e : Error)
    (hpr : env.pool_order order_url (set_empty_data_builder account order_url)
      (fun o => decide (o.status = OrderStatus.Ready)) n = .ok pr)
    (hkp : env.get_key_pair cert = .ok kp)
    (hcsr : env.generate_csr cert kp.1 kp.2 = .ok csr)
    (hgo : env.get_order pr.1.finalize
      (set_data_builder account csr pr.1.finalize) pr.2 = .error e) :
    finalize_steps env cert account order_url n =
      ([Event.order_poll_ready pr.1 n pr.2], .error e) := by
  simp [finalize_steps, hpr, hkp, hcsr, hgo, callEv, callEv0, andThen]

theorem finalize_ok_decomp (env : Env) (cert : Certificate) (account : Account)
    (order_url : String) (n : Nonce) (pr : Order × Nonce)
    (kp : String × String) (csr : String) (q : Order × Nonce)
    (hpr : env.pool_order order_url (set_empty_data_builder account order_url)
      (fun o => decide (o.status = OrderStatus.Ready)) n = .ok pr)
    (hkp : env.get_key_pair cert = .ok kp)
    (hcsr : env.generate_csr cert kp.1 kp.2 = .ok csr)
    (hgo : env.get_order pr.1.finalize
      (set_data_builder account csr pr.1.finalize) pr.2 = .ok q) :
    finalize_steps env cert account order_url n =
      (Event.order_poll_ready pr.1 n pr.2 :: Event.finalize_post pr.2 q.2 ::
        (download_steps env cert account order_url q.2).1,
       (download_steps env cert account order_url q.2).2) := by
  simp [finalize_steps, hpr, hkp, hcsr, hgo, callEv, callEv0, andThen]

theorem finalize_steps_facts (env : Env) (cert : Certificate)
    (account : Account) (order_url : String) (n : Nonce) :
    (∀ (o : Order) (u r : Nonce),
      Event.order_poll_valid o u r ∈ (finalize_steps env cert account order_url n).1 →
      o.certificate = none →
      (finalize_steps env cert account order_url n).2 =
        .error "No certificate available for download." ∧
      (∀ c, Event.storage_write c ∉ (finalize_steps env cert account order_url n).1) ∧
      (∀ c uc rc, Event.cert_download c uc rc ∉
        (finalize_steps env cert account order_url n).1)) ∧
    (∀ c, Event.storage_write c ∈ (finalize_steps env cert account order_url n).1 →
      ∃ o u r, Event.order_poll_valid o u r ∈
          (finalize_steps env cert account order_url n).1 ∧
        ∃ curl, o.certificate = some curl) := by
  cases hpr : env.pool_order order_url (set_empty_data_builder account order_url)
      (fun o => decide (o.status = OrderStatus.Ready)) n with
  | error e =>
    rw [finalize_err_poll env cert account order_url n e hpr]
    exact ⟨fun o u r hmem => by simp at hmem, fun c hmem => by simp at hmem⟩
  | ok pr =>
    cases hkp : env.get_key_pair cert with
    | error e =>
      rw [finalize_err_keys env cert account order_url n pr e hpr hkp]
      exact ⟨fun o u r hmem => by simp at hmem, fun c hmem => by simp at hmem⟩
    | ok kp =>
      cases hcsr : env.generate_csr cert kp.1 kp.2 with
      | error e =>
        rw [finalize_err_csr env cert account order_url n pr kp e hpr hkp hcsr]
        exact ⟨fun o u r hmem => by simp at hmem, fun c hmem => by simp at hmem⟩
      | ok csr =>
        cases hgo : env.get_order pr.1.finalize
            (set_data_builder account csr pr.1.finalize) pr.2 with
        | error e =>
          rw [finalize_err_order env cert account order_url n pr kp csr e
            hpr hkp hcsr hgo]
          exact ⟨fun o u r hmem => by simp at hmem, fun c hmem => by simp at hmem⟩
        | ok q =>
          rw [finalize_ok_decomp env cert account order_url n pr kp csr q
            hpr hkp hcsr hgo]
          obtain ⟨hfact1, hfact2⟩ :=
            download_steps_facts env cert account order_url q.2
          constructor
          · intro o u r hmem hnone
            rcases List.mem_cons.mp hmem with hev | hmem2
            · simp at hev
            rcases List.mem_cons.mp hmem2 with hev | hmem3
            · simp at hev
            obtain ⟨hres, hnost, hnodl⟩ := hfact1 o u r hmem3 hnone
            refine ⟨hres, ?_, ?_⟩
            · intro c hm
              rcases List.mem_cons.mp hm with hef | hm2
              · simp at hef
              rcases List.mem_cons.mp hm2 with hef | hm3
              · simp at hef
              exact hnost c hm3
            · intro c uc rc hm
              rcases List.mem_cons.mp hm with hef | hm2
              · simp at hef
              rcases List.mem_cons.mp hm2 with hef | hm3
              · simp at hef
              exact hnodl c uc rc hm3
          · intro c hmem
            rcases List.mem_cons.mp hmem with hef | hmem2
            · simp at hef
            rcases List.mem_cons.mp hmem2 with hef | hmem3
            · simp at hef
            obtain ⟨o, u, r, hm, curl, hsome⟩ := hfact2 c hmem3
            exact ⟨o, u, r, List.mem_cons_of_mem _ (List.mem_cons_of_mem _ hm),
              curl, hsome⟩

/-- Claim C6: if, after the order is polled to valid, its certificate
field is absent, the run returns the missing-resource error
"No certificate available for download." and neither a download nor the
storage collaborator is ever invoked; storage is reached only when the
polled order carries a certificate URL. -/
theorem claim6_missing_certificate (env : Env) (cert : Certificate) :
    (∀ (o : Order) (u r : Nonce),
      Event.order_poll_valid o u r ∈ (request_certificate env cert).1 →
      o.certificate = none →
      (request_certificate env cert).2 =
        .error "No certificate available for download." ∧
      (∀ c, Event.storage_write c ∉ (request_certificate env cert).1) ∧
      (∀ c uc rc, Event.cert_download c uc rc ∉
        (request_certificate env cert).1)) ∧
    (∀ c, Event.storage_write c ∈ (request_certificate env cert).1 →
      ∃ o u r, Event.order_poll_valid o u r ∈ (request_certificate env cert).1 ∧
        ∃ curl, o.certificate = some curl) := by
  cases hd : env.get_directory cert.remote_url with
  | error e =>
    rw [request_certificate_err_dir env cert e hd]
    exact ⟨fun o u r hmem => by simp at hmem, fun c hmem => by simp at hmem⟩
  | ok directory =>
    cases hn : env.get_nonce directory.new_nonce with
    | error e =>
      rw [request_certificate_err_nonce env cert directory e hd hn]
      exact ⟨fun o u r hmem => by simp at hmem, fun c hmem => by simp at hmem⟩
    | ok nonce =>
      rw [request_certificate_ok env cert directory nonce hd hn]
      cases hap : env.account_new cert directory nonce with
      | error e =>
        rw [issuance_err_account env cert directory nonce e hap]
        exact ⟨fun o u r hmem => by simp at hmem, fun c hmem => by simp at hmem⟩
      | ok ap =>
        cases hno : env.to_string_new_order cert.domains with
        | error e =>
          rw [issuance_err_neworder env cert directory nonce ap e hap hno]
          exact ⟨fun o u r hmem => by simp at hmem, fun c hmem => by simp at hmem⟩
        | ok no =>
          cases hol : env.get_obj_loc directory.new_order
              (set_data_builder ap.1 no directory.new_order) ap.2 with
          | error e =>
            rw [issuance_err_objloc env cert directory nonce ap no e hap hno hol]
            exact ⟨fun o u r hmem => by simp at hmem,
              fun c hmem => by simp at hmem⟩
          | ok q =>
            rw [issuance_ok env cert directory nonce ap no q hap hno hol]
            constructor
            · intro o u r hmem hnone
              rcases List.mem_cons.mp hmem with hev | hmem2
              · simp at hev
              rcases List.mem_cons.mp hmem2 with hev | hmem3
              · simp at hev
              rcases List.mem_cons.mp hmem3 with hev | hmem4
              · simp at hev
              rcases List.mem_cons.mp hmem4 with hev | hmem5
              · simp at hev
              rcases mem_andThen hmem5 with hmem6 | ⟨n4, hok, hmem6⟩
              · exfalso
                have hk := process_auths_kinds env cert ap.1
                  q.1.authorizations q.2.2 _ hmem6
                simp [Event.kind] at hk
              · obtain ⟨hres, hnost, hnodl⟩ := (finalize_steps_facts env cert
                  ap.1 q.2.1 n4).1 o u r hmem6 hnone
                rw [andThen_ok (process_auths env cert ap.1 q.1.authorizations
                  q.2.2) _ n4 hok]
                refine ⟨hres, ?_, ?_⟩
                · intro c hm
                  rcases List.mem_cons.mp hm with hef | hm2
                  · simp at hef
                  rcases List.mem_cons.mp hm2 with hef | hm3
                  · simp at hef
                  rcases List.mem_cons.mp hm3 with hef | hm4
                  · simp at hef
                  rcases List.mem_cons.mp hm4 with hef | hm5
                  · simp at hef
                  rcases List.mem_append.mp hm5 with hm6 | hm6
                  · have hk := process_auths_kinds env cert ap.1
                      q.1.authorizations q.2.2 _ hm6
                    simp [Event.kind] at hk
                  · exact hnost c hm6
                · intro c uc rc hm
                  rcases List.mem_cons.mp hm with hef | hm2
                  · simp at hef
                  rcases List.mem_cons.mp hm2 with hef | hm3
                  · simp at hef
                  rcases List.mem_cons.mp hm3 with hef | hm4
                  · simp at hef
                  rcases List.mem_cons.mp hm4 with hef | hm5
                  · simp at hef
                  rcases List.mem_append.mp hm5 with hm6 | hm6
                  · have hk := process_auths_kinds env cert ap.1
                      q.1.authorizations q.2.2 _ hm6
                    simp [Event.kind] at hk
                  · exact hnodl c uc rc hm6
            · intro c hmem
              rcases List.mem_cons.mp hmem with hev | hmem2
              · simp at hev
              rcases List.mem_cons.mp hmem2 with hev | hmem3
              · simp at hev
              rcases List.mem_cons.mp hmem3 with hev | hmem4
              · simp at hev
              rcases List.mem_cons.mp hmem4 with hev | hmem5
              · simp at hev
              rcases mem_andThen hmem5 with hmem6 | ⟨n4, hok, hmem6⟩
              · exfalso
                have hk := process_auths_kinds env cert ap.1
                  q.1.authorizations q.2.2 _ hmem6
                simp [Event.kind] at hk
              · obtain ⟨o, u, r, hm, curl, hsome⟩ := (finalize_steps_facts env
                  cert ap.1 q.2.1 n4).2 c hmem6
                refine ⟨o, u, r, ?_, curl, hsome⟩
                apply List.mem_cons_of_mem
                apply List.mem_cons_of_mem
                apply List.mem_cons_of_mem
                apply List.mem_cons_of_mem
                rw [andThen_ok (process_auths env cert ap.1 q.1.authorizations
                  q.2.2) _ n4 hok]
                exact List.mem_append_right _ hm

/-- Witness for claim C6: a concrete run whose valid order has no
certificate URL aborts with the missing-resource error and never invokes
download or storage. -/
theorem claim6_missing_certificate_witness :
    (request_certificate noCertEnv exCert).2 =
      .error "No certificate available for download." ∧
    (∀ c, Event.storage_write c ∉ (request_certificate noCertEnv exCert).1) ∧
    (∀ c uc rc, Event.cert_download c uc rc ∉
      (request_certificate noCertEnv exCert).1) :=
  (claim6_missing_certificate noCertEnv exCert).1 exOrderValidNoCert
    "nxxxxxxx" "nxxxxxxxx" (by decide) rfl

theorem andThen_ok_inv {α β : Type} {step : List Event × Except Error α}
    {k : α → List Event × Except Error β} {tr : List Event} {b : β}
    (h : andThen step k = (tr, .ok b)) :
    ∃ a, step.2 = .ok a ∧ (k a).2 = .ok b ∧ tr = step.1 ++ (k a).1 := by
  rcases step with ⟨trs, rs⟩
  cases rs with
  | error er =>
    rw [andThen] at h
    obtain ⟨h1, h2⟩ := Prod.mk.inj h
    simp at h2
  | ok a =>
    rcases hk : k a with ⟨tr2, r2⟩
    rw [andThen, hk] at h
    obtain ⟨h1, h2⟩ := Prod.mk.inj h
    exact ⟨a, rfl, by rw [hk, ← h2], by rw [hk, ← h1]⟩

theorem pool_auth_step_ok_inv (env : Env) (account : Account) (url : String)
    (n : Nonce) (nh : Nonce)
    (h : (pool_auth_step env account url n).2 = .ok nh) :
    ∃ a2, (pool_auth_step env account url n).1 =
        [Event.auth_poll url a2 n nh] ∧
      env.pool_auth url (set_empty_data_builder account url)
        (fun a => decide (a.status = AuthorizationStatus.Valid)) n =
        .ok (a2, nh) := by
  cases hpa : env.pool_auth url (set_empty_data_builder account url)
      (fun a => decide (a.status = AuthorizationStatus.Valid)) n with
  | error e =>
    have hps : pool_auth_step env account url n = ([], .error e) := by
      simp [pool_auth_step, hpa]
    rw [hps] at h
    simp at h
  | ok p =>
    have hps : pool_auth_step env account url n =
        ([Event.auth_poll url p.1 n p.2], .ok p.2) := by
      simp [pool_auth_step, hpa]
    rw [hps] at h
    simp at h
    refine ⟨p.1, by rw [hps]; simp [← h], ?_⟩
    rw [← h]

theorem process_auths_ok_events (env : Env) (cert : Certificate)
    (account : Account) (hAuth : poolAuthSound env) :
    ∀ (urls : List String) (n n4 : Nonce),
    (process_auths env cert account urls n).2 = .ok n4 →
    ∀ url ∈ urls, ∃ a ua ra,
      Event.auth_fetch url a ua ra ∈ (process_auths env cert account urls n).1 ∧
      (a.status = AuthorizationStatus.Valid ∨
        ∃ a2 ua2 ra2, Event.auth_poll url a2 ua2 ra2 ∈
            (process_auths env cert account urls n).1 ∧
          a2.status = AuthorizationStatus.Valid) := by
  intro urls
  induction urls with
  | nil => intro n n4 hok url hmem; simp at hmem
  | cons url0 rest ih =>
    intro n n4 hok url hmem
    cases hga : env.get_auth url0 (set_empty_data_builder account url0) n with
    | error e =>
      rw [process_auths_cons_err env cert account url0 rest n e hga] at hok
      simp at hok
    | ok p =>
      rcases hh : handle_auth env cert account url0 p.1 p.2 with ⟨trh, rh⟩
      cases rh with
      | error eh =>
        rw [process_auths_cons_ok_err env cert account url0 rest n p trh eh
          hga hh] at hok
        simp at hok
      | ok nh =>
        have hdec := process_auths_cons_ok_ok env cert account url0 rest n p
          trh nh hga hh
        rw [hdec] at hok
        rw [hdec]
        rcases List.mem_cons.mp hmem with rfl | hmem2
        · refine ⟨p.1, n, p.2, List.mem_cons_self _ _, ?_⟩
          by_cases hv : p.1.status = AuthorizationStatus.Valid
          · exact Or.inl hv
          · by_cases hpd : p.1.status = AuthorizationStatus.Pending
            · right
              rw [handle_auth, if_neg hv, if_neg (not_not_intro hpd)] at hh
              obtain ⟨nmid, hpc, hpas, htr⟩ := andThen_ok_inv hh
              obtain ⟨a2, htrp, hpa2⟩ :=
                pool_auth_step_ok_inv env account url nmid nh hpas
              have hval : a2.status = AuthorizationStatus.Valid := by
                have := hAuth url (set_empty_data_builder account url)
                  (fun a => decide (a.status = AuthorizationStatus.Valid))
                  nmid (a2, nh) hpa2
                exact of_decide_eq_true this
              refine ⟨a2, nmid, nh, ?_, hval⟩
              apply List.mem_cons_of_mem
              apply List.mem_append_left
              rw [htr, htrp]
              exact List.mem_append_right _ (List.mem_singleton.mpr rfl)
            · rw [handle_auth_bad env cert account url p.1 p.2 hv hpd] at hh
              obtain ⟨h1, h2⟩ := Prod.mk.inj hh
              simp at h2
        · obtain ⟨a, ua, ra, hfm, hrest⟩ := ih nh n4 hok url hmem2
          refine ⟨a, ua, ra, ?_, ?_⟩
          · exact List.mem_cons_of_mem _ (List.mem_append_right _ hfm)
          · rcases hrest with hval | ⟨a2, ua2, ra2, hpm, hval⟩
            · exact Or.inl hval
            · exact Or.inr ⟨a2, ua2, ra2,
                List.mem_cons_of_mem _ (List.mem_append_right _ hpm), hval⟩

theorem exEnv_poolOrderSound : poolOrderSound exEnv := by
  intro url db p n pn hp
  simp only [exEnv] at hp
  split at hp
  · injection hp with h
    rw [← h]
    assumption
  · split at hp
    · injection hp with h
      rw [← h]
      assumption
    · simp at hp

theorem exEnv_poolAuthSound : poolAuthSound exEnv := by
  intro url db p n pn hp
  simp only [exEnv] at hp
  split at hp
  · injection hp with h
    rw [← h]
    assumption
  · simp at hp

/-- Claim C7 (amended): the finalize POST is attempted only after the
order has been successfully polled to status ready, which happens only
after every authorization of the created order has been processed — each
authorization either was already valid when fetched or was polled to
status valid; on any earlier failure finalize is never reached. -/
theorem claim7_finalize_after_ready (env : Env) (cert : Certificate)
    (hOrd : poolOrderSound env) (hAuth : poolAuthSound env)
    (uf rf : Nonce)
    (hfin : Event.finalize_post uf rf ∈ (request_certificate env cert).1) :
    ∃ (t1 t2 : List Event) (o : Order) (ur rr : Nonce),
      (request_certificate env cert).1 =
        t1 ++ Event.order_poll_ready o ur rr :: t2 ∧
      o.status = OrderStatus.Ready ∧
      Event.finalize_post uf rf ∈ t2 ∧
      ∃ ord ourl uc rc, Event.order_created ord ourl uc rc ∈ t1 ∧
        ∀ aurl ∈ ord.authorizations, ∃ a ua ra,
          Event.auth_fetch aurl a ua ra ∈ t1 ∧
          (a.status = AuthorizationStatus.Valid ∨
            ∃ a2 ua2 ra2, Event.auth_poll aurl a2 ua2 ra2 ∈ t1 ∧
              a2.status = AuthorizationStatus.Valid) := by
  cases hd : env.get_directory cert.remote_url with
  | error e =>
    rw [request_certificate_err_dir env cert e hd] at hfin
    simp at hfin
  | ok directory =>
    cases hn : env.get_nonce directory.new_nonce with
    | error e =>
      rw [request_certificate_err_nonce env cert directory e hd hn] at hfin
      simp at hfin
    | ok nonce =>
      rw [request_certificate_ok env cert directory nonce hd hn] at hfin ⊢
      cases hap : env.account_new cert directory nonce with
      | error e =>
        rw [issuance_err_account env cert directory nonce e hap] at hfin
        simp at hfin
      | ok ap =>
        cases hno : env.to_string_new_order cert.domains with
        | error e =>
          rw [issuance_err_neworder env cert directory nonce ap e hap hno]
            at hfin
          simp at hfin
        | ok no =>
          cases hol : env.get_obj_loc directory.new_order
              (set_data_builder ap.1 no directory.new_order) ap.2 with
          | error e =>
            rw [issuance_err_objloc env cert directory nonce ap no e
              hap hno hol] at hfin
            simp at hfin
          | ok q =>
            rw [issuance_ok env cert directory nonce ap no q hap hno hol]
              at hfin ⊢
            rcases List.mem_cons.mp hfin with hev | hfin2
            · simp at hev
            rcases List.mem_cons.mp hfin2 with hev | hfin3
            · simp at hev
            rcases List.mem_cons.mp hfin3 with hev | hfin4
            · simp at hev
            rcases List.mem_cons.mp hfin4 with hev | hfin5
            · simp at hev
            rcases mem_andThen hfin5 with hfin6 | ⟨n4, hok, hfin6⟩
            · exfalso
              have hk := process_auths_kinds env cert ap.1
                q.1.authorizations q.2.2 _ hfin6
              simp [Event.kind] at hk
            · cases hpr : env.pool_order q.2.1
                  (set_empty_data_builder ap.1 q.2.1)
                  (fun o => decide (o.status = OrderStatus.Ready)) n4 with
              | error e =>
                rw [finalize_err_poll env cert ap.1 q.2.1 n4 e hpr] at hfin6
                simp at hfin6
              | ok pr =>
                cases hkp : env.get_key_pair cert with
                | error e =>
                  rw [finalize_err_keys env cert ap.1 q.2.1 n4 pr e hpr hkp]
                    at hfin6
                  simp at hfin6
                | ok kp =>
                  cases hcsr : env.generate_csr cert kp.1 kp.2 with
                  | error e =>
                    rw [finalize_err_csr env cert ap.1 q.2.1 n4 pr kp e
                      hpr hkp hcsr] at hfin6
                    simp at hfin6
                  | ok csr =>
                    cases hgo : env.get_order pr.1.finalize
                        (set_data_builder ap.1 csr pr.1.finalize) pr.2 with
                    | error e =>
                      rw [finalize_err_order env cert ap.1 q.2.1 n4 pr kp csr
                        e hpr hkp hcsr hgo] at hfin6
                      simp at hfin6
                    | ok q2 =>
                      rw [finalize_ok_decomp env cert ap.1 q.2.1 n4 pr kp csr
                        q2 hpr hkp hcsr hgo] at hfin6
                      have hfin7 : Event.finalize_post uf rf ∈
                          Event.finalize_post pr.2 q2.2 ::
                            (download_steps env cert ap.1 q.2.1 q2.2).1 := by
                        rcases List.mem_cons.mp hfin6 with hev | h2
                        · simp at hev
                        · exact h2
                      rw [andThen_ok (process_auths env cert ap.1
                          q.1.authorizations q.2.2) _ n4 hok,
                        finalize_ok_decomp env cert ap.1 q.2.1 n4 pr kp csr
                          q2 hpr hkp hcsr hgo]
                      refine ⟨Event.get_directory cert.remote_url directory ::
                        Event.first_nonce nonce ::
                        Event.account_new nonce ap.2 ::
                        Event.order_created q.1 q.2.1 ap.2 q.2.2 ::
                        (process_auths env cert ap.1 q.1.authorizations
                          q.2.2).1,
                        Event.finalize_post pr.2 q2.2 ::
                          (download_steps env cert ap.1 q.2.1 q2.2).1,
                        pr.1, n4, pr.2, ?_, ?_, hfin7, ?_⟩
                      · simp
                      · exact of_decide_eq_true (hOrd _ _ _ _ pr hpr)
                      · refine ⟨q.1, q.2.1, ap.2, q.2.2, by simp, ?_⟩
                        intro aurl hmem
                        obtain ⟨a, ua, ra, hfm, hrest⟩ :=
                          process_auths_ok_events env cert ap.1 hAuth
                            q.1.authorizations q.2.2 n4 hok aurl hmem
                        refine ⟨a, ua, ra, by simp [hfm], ?_⟩
                        rcases hrest with hval | ⟨a2, ua2, ra2, hpm, hval⟩
                        · exact Or.inl hval
                        · exact Or.inr ⟨a2, ua2, ra2, by simp [hpm], hval⟩

theorem skipEnv_poolOrderSound : poolOrderSound skipEnv :=
  exEnv_poolOrderSound

theorem skipEnv_poolAuthSound : poolAuthSound skipEnv :=
  exEnv_poolAuthSound

/-- Counterexample for claim C7 as stated: in a run whose single
authorization is already valid when fetched (and whose polling
collaborators are sound), the finalize POST is attempted although that
authorization is never polled — the trace contains no authorization-poll
event at all, so "every authorization ... polled to status valid" fails. -/
theorem claim7_counterexample :
    poolOrderSound skipEnv ∧ poolAuthSound skipEnv ∧
    Event.finalize_post "nxxxx" "nxxxxx" ∈
      (request_certificate skipEnv exCert).1 ∧
    (Event.order_created exOrderPending "order-url" "nx" "nxx" ∈
        (request_certificate skipEnv exCert).1 ∧
      "auth1" ∈ exOrderPending.authorizations) ∧
    (request_certificate skipEnv exCert).1.all
      (fun e => !e.is_auth_poll) = true :=
  ⟨skipEnv_poolOrderSound, skipEnv_poolAuthSound, by decide,
    ⟨by decide, by decide⟩, by decide⟩

/-- Witness for claim C7 (amended) at a concrete run with one pending
authorization that is polled to valid before the order becomes ready. -/
theorem claim7_finalize_after_ready_witness :
    ∃ (t1 t2 : List Event) (o : Order) (ur rr : Nonce),
      (request_certificate exEnv exCert).1 =
        t1 ++ Event.order_poll_ready o ur rr :: t2 ∧
      o.status = OrderStatus.Ready ∧
      Event.finalize_post "nxxxxxx" "nxxxxxxx" ∈ t2 ∧
      ∃ ord ourl uc rc, Event.order_created ord ourl uc rc ∈ t1 ∧
        ∀ aurl ∈ ord.authorizations, ∃ a ua ra,
          Event.auth_fetch aurl a ua ra ∈ t1 ∧
          (a.status = AuthorizationStatus.Valid ∨
            ∃ a2 ua2 ra2, Event.auth_poll aurl a2 ua2 ra2 ∈ t1 ∧
              a2.status = AuthorizationStatus.Valid) :=
  claim7_finalize_after_ready exEnv exCert exEnv_poolOrderSound
    exEnv_poolAuthSound "nxxxxxx" "nxxxxxxx" (by decide)
